import Mathlib

/-!
3D DICOM image visualizer: series index, timepoint assembly, affine transform.

A shallow embedding of `DicomManager` (src/src/DicomManager.cpp,
src/include/DicomManager.h) and of the methods `createTransformMatrix`,
`createContourActor` and `setSliceOpacity` of `VtkManager`
(src/src/VtkManager.cpp).

Modelling decisions.

* `double` is a carrier type `R`, and every definition asks only for the
  operations it uses, so that each definition can be read at any carrier.  The
  type `Double` is the carrier of IEEE 754 binary64: NaN, the two infinities and
  the finite values with round-to-nearest-even addition, subtraction and
  multiplication.  Theorems that hold of `double` only under a condition are
  stated at `Double` with that condition, and theorems that use no law of
  arithmetic are stated for every carrier.
* The three `std::vector<double>` members of `DicomFrame` are created with 3, 6
  and 2 elements and are never resized, so they are functions on `Fin 3`,
  `Fin 6` and `Fin 2`.
* `std::map<std::string, DicomSeries>` is an association list kept in ascending
  key order; iteration over the map is iteration over that list.
* `std::sort` is an insertion sort driven by the same comparator.  The standard
  fixes the result of `std::sort` only up to the order of equivalent elements;
  every theorem below is about the properties the standard does fix.
* The file system, the `std::filesystem` path functions and the DCMTK decoder are
  the fields of an environment record `FileSystem`; the decoder `cnpy::npy_load`
  is a parameter of `createContourActor`.
* A statement about a commutative ring `K` is a statement about exact
  arithmetic; it is not a statement about `double`, whose operations round.
-/

set_option exponentiation.threshold 5000

namespace Dicom

/-! ## Frame records -/

/-- The struct `DicomFrame` of DicomManager.h. -/
structure DicomFrame (R : Type) where
  filePath : String
  contourFilePath : String
  instanceNumber : Int
  imagePosition : Fin 3 → R
  imageOrientation : Fin 6 → R
  pixelSpacing : Fin 2 → R
  rows : Int
  cols : Int

/-- The default member initialisers of `DicomFrame`: empty paths, instance
number 0, position (0,0,0), orientation (1,0,0,0,1,0), spacing (1,1), and
0 rows and columns. -/
def DicomFrame.init (R : Type) [Zero R] [One R] : DicomFrame R where
  filePath := ""
  contourFilePath := ""
  instanceNumber := 0
  imagePosition := ![0, 0, 0]
  imageOrientation := ![1, 0, 0, 0, 1, 0]
  pixelSpacing := ![1, 1]
  rows := 0
  cols := 0

/-- The member `DicomFrame::operator<`: comparison of instance numbers. -/
def DicomFrame.lt {R : Type} (a other : DicomFrame R) : Bool :=
  decide (a.instanceNumber < other.instanceNumber)

/-- The alias `DicomSeries`: a vector of frames. -/
abbrev DicomSeries (R : Type) := List (DicomFrame R)

/-! ## Library models: `std::sort` and `std::map` -/

/-- One insertion step of the sort: `x` goes in front of the first element that
the comparator does not place before `x`. -/
def sortInsert {α : Type} (comp : α → α → Bool) (x : α) : List α → List α
  | [] => [x]
  | y :: ys => if comp y x then y :: sortInsert comp x ys else x :: y :: ys

/-- The call `std::sort(first, last, comp)` on a whole vector. -/
def stdSort {α : Type} (comp : α → α → Bool) : List α → List α
  | [] => []
  | x :: xs => sortInsert comp x (stdSort comp xs)

/-- The comparison `a < b` of two `std::string` values: lexicographic order of
the character sequences. -/
def strLess (a b : String) : Bool := decide (a.data < b.data)

/-- The member `m_seriesMap`: the entries of the map in ascending key order. -/
abbrev SeriesMap (R : Type) := List (String × DicomSeries R)

/-- The statement `m[key] = value` on a `std::map`: the value of an existing key
is replaced, a new key is inserted at its place in the key order. -/
def mapAssign {R : Type} (key : String) (value : DicomSeries R) :
    SeriesMap R → SeriesMap R
  | [] => [(key, value)]
  | (k, v) :: rest =>
    if strLess key k then (key, value) :: (k, v) :: rest
    else if key = k then (key, value) :: rest
    else (k, v) :: mapAssign key value rest

/-- The conversion `static_cast<int>(n)` of a `size_t` to a 32-bit `int`:
reduction modulo 2^32 into the range from -2^31 to 2^31 - 1. -/
def castInt (n : Nat) : Int :=
  (((n + 2 ^ 31) % 2 ^ 32 : Nat) : Int) - 2 ^ 31

/-! ## The type `double`

A finite binary64 value is an integer multiple of 2^-1074, the smallest positive
subnormal: `fin k` is the number `k * 2^-1074`, with `|k| < 2^2098`.  Negative
zero is identified with zero, with which it compares equal. -/

/-- The values of a `double`: NaN, plus or minus infinity, and the finite values
`units * 2^-1074`. -/
inductive Double where
  | nan
  | inf (negative : Bool)
  | fin (units : Int)
deriving DecidableEq

namespace Double

/-- The number of binary digits of `a`, for `a < 2^8192`: 0 for 0, and
`floor (log2 a) + 1` otherwise, found by halving the range of the exponent. -/
def bitLength (a : Nat) : Nat :=
  let st := [4096, 2048, 1024, 512, 256, 128, 64, 32, 16, 8, 4, 2, 1].foldl
    (fun (st : Nat × Nat) (e : Nat) => if 2 ^ e ≤ st.1 then (st.1 / 2 ^ e, st.2 + e) else st)
    (a, 0)
  if st.1 = 0 then 0 else st.2 + 1

/-- Rounding to nearest, ties to even, of the magnitude `a * 2^-(1074 + s)`; the
result is in units of 2^-1074.  The magnitude keeps 53 significant binary
digits, or fewer where the grid of 2^-1074 is coarser than that. -/
def roundMagnitude (a s : Nat) : Nat :=
  let q := max (bitLength a - 53) s
  let r := a / 2 ^ q
  let rem := a % 2 ^ q
  let r := if 2 ^ q < 2 * rem ∨ (2 * rem = 2 ^ q ∧ r % 2 = 1) then r + 1 else r
  r * 2 ^ (q - s)

/-- The `double` nearest to the exact number of magnitude `a * 2^-(1074 + s)`
and the given sign; a rounded magnitude of 2^1024 or more overflows to
infinity. -/
def ofExact (negative : Bool) (a s : Nat) : Double :=
  let m := roundMagnitude a s
  if 2 ^ 2098 ≤ m then inf negative
  else fin (if negative then -(m : Int) else (m : Int))

/-- The sum `a + b` of two doubles. -/
def add : Double → Double → Double
  | fin a, fin b => ofExact (decide (a + b < 0)) (a + b).natAbs 0
  | fin _, inf n => inf n
  | inf n, fin _ => inf n
  | inf n1, inf n2 => if n1 = n2 then inf n1 else nan
  | _, _ => nan

/-- The negation `-a` of a double. -/
def neg : Double → Double
  | fin a => fin (-a)
  | inf n => inf (!n)
  | nan => nan

/-- The difference `a - b` of two doubles. -/
def sub (a b : Double) : Double := add a (neg b)

/-- The product `a * b` of two doubles. -/
def mul : Double → Double → Double
  | fin a, fin b => ofExact (decide (a * b < 0)) (a * b).natAbs 1074
  | fin a, inf n => if a = 0 then nan else inf (decide (a < 0) != n)
  | inf n, fin b => if b = 0 then nan else inf (n != decide (b < 0))
  | inf n1, inf n2 => inf (n1 != n2)
  | _, _ => nan

/-- The comparison `a < b` of two doubles; false when either is NaN. -/
def lt : Double → Double → Bool
  | fin a, fin b => decide (a < b)
  | fin _, inf n => !n
  | inf n, fin _ => n
  | inf n1, inf n2 => n1 && !n2
  | _, _ => false

/-- The comparison `a <= b` of two doubles; false when either is NaN. -/
def le : Double → Double → Bool
  | fin a, fin b => decide (a ≤ b)
  | fin _, inf n => !n
  | inf n, fin _ => n
  | inf n1, inf n2 => n1 || !n2
  | _, _ => false

/-- The `double` nearest to `m * 2^-s`, for `s` up to 1074 and `|m| < 2^1024`; it
is `m * 2^-s` itself when `|m| < 2^53`. -/
def dyadic (m : Int) (s : Nat) : Double :=
  ofExact (decide (m < 0)) (m.natAbs * 2 ^ (1074 - s)) 0

/-- The number of units of 2^-1074 in a finite double, and 0 for the others. -/
def units : Double → Int
  | fin k => k
  | _ => 0

end Double

instance : Zero Double := ⟨Double.fin 0⟩

instance : One Double := ⟨Double.dyadic 1 0⟩

instance : Add Double := ⟨Double.add⟩

instance : Sub Double := ⟨Double.sub⟩

instance : Mul Double := ⟨Double.mul⟩

instance : LT Double := ⟨fun a b => Double.lt a b = true⟩

instance : LE Double := ⟨fun a b => Double.le a b = true⟩

instance : DecidableRel (fun a b : Double => a < b) :=
  fun a b => inferInstanceAs (Decidable (Double.lt a b = true))

instance : DecidableRel (fun a b : Double => a ≤ b) :=
  fun a b => inferInstanceAs (Decidable (Double.le a b = true))

/-! ## The environment of a load: file system and tag decoder -/

/-- One `fs::directory_entry` produced by a `fs::directory_iterator`. -/
structure DirectoryEntry where
  path : String
  isRegularFile : Bool
  isDirectory : Bool
deriving DecidableEq

/-- The answers of a loaded `DcmDataset` to the six look-ups of
`loadSelectedSeries`; `none` is a result that is not `good()`.  The `OFString`
value of each of the three decimal-string elements is represented by the numbers
that `sscanf` is able to convert from it when the format is a sequence of `%lf`
separated by backslashes, in order: the text 1.5, backslash, 2 is the list
`[1.5, 2]`, and the empty text is `[]`. -/
structure DcmDataset (R : Type) where
  imagePositionPatient : Option (List R)
  imageOrientationPatient : Option (List R)
  pixelSpacing : Option (List R)
  instanceNumber : Option Int
  rows : Option Nat
  columns : Option Nat

/-- The world outside the manager: directory tests and enumeration
(`fs::is_directory`, `fs::exists`, `fs::directory_iterator`), the path functions
(`operator/`, `extension`, `stem`, `parent_path`, `filename`) and the decoder
(`DcmFileFormat::loadFile`, `none` when the status is not `good()`). -/
structure FileSystem (R : Type) where
  isDirectory : String → Bool
  pathExists : String → Bool
  directoryIterator : String → List DirectoryEntry
  join : String → String → String
  extension : String → String
  stem : String → String
  parentPath : String → String
  filename : String → String
  loadFile : String → Option (DcmDataset R)

/-- The effect of `sscanf` with `n` conversions `%lf` and the targets
`&target[0]`, `&target[1]`, and so on: component `i` of the target receives the
`i`-th converted number when there is one and keeps its previous content
otherwise. -/
def sscanfStore {R : Type} {n : Nat} (value : List R) (target : Fin n → R) : Fin n → R :=
  fun i => match value[i.val]? with
    | some x => x
    | none => target i

namespace DicomManager

/-- One of the three blocks of `loadSelectedSeries` that look up a decimal-string
tag: when `findAndGetOFStringArray` is `good()` the value is scanned into the
target, otherwise `success` is cleared. -/
def scanTag {R : Type} {n : Nat} (found : Option (List R)) (target : Fin n → R)
    (success : Bool) : (Fin n → R) × Bool :=
  match found with
  | some value => (sscanfStore value target, success)
  | none => (target, false)

/-- Lines 64 to 96 of DicomManager.cpp: a fresh frame receives the file path and
the six tags; the flag `success` is cleared once a look-up is not `good()`. -/
def extractTags {R : Type} [Zero R] [One R] (filePath : String) (dataset : DcmDataset R) :
    DicomFrame R × Bool :=
  let frame : DicomFrame R := { DicomFrame.init R with filePath := filePath }
  let success := true
  let position := scanTag dataset.imagePositionPatient frame.imagePosition success
  let orientation := scanTag dataset.imageOrientationPatient frame.imageOrientation position.2
  let spacing := scanTag dataset.pixelSpacing frame.pixelSpacing orientation.2
  let success := if dataset.instanceNumber.isSome then spacing.2 else false
  let instNum : Int := dataset.instanceNumber.getD 0
  let success := if dataset.rows.isSome then success else false
  let success := if dataset.columns.isSome then success else false
  let rows : Nat := dataset.rows.getD 0
  let cols : Nat := dataset.columns.getD 0
  ({ frame with
      imagePosition := position.1
      imageOrientation := orientation.1
      pixelSpacing := spacing.1
      instanceNumber := instNum
      rows := (rows : Int)
      cols := (cols : Int) }, success)

/-- Lines 100 to 106: the companion contour path is recorded when it exists. -/
def attachContour {R : Type} (env : FileSystem R) (filePath : String) (frame : DicomFrame R) :
    DicomFrame R :=
  let contourName := env.stem filePath ++ "_cont.npy"
  let contourPath := env.join (env.parentPath filePath) contourName
  if env.pathExists contourPath then { frame with contourFilePath := contourPath } else frame

/-- The body of the inner loop of `loadSelectedSeries` (lines 55 to 109): entries
that are not regular `.dcm` files and files that do not load are skipped; a
decoded file is pushed to the series when `success` is still set. -/
def loadFileEntry {R : Type} [Zero R] [One R] (env : FileSystem R)
    (currentSeries : DicomSeries R) (fileEntry : DirectoryEntry) : DicomSeries R :=
  if !fileEntry.isRegularFile || env.extension fileEntry.path != ".dcm" then currentSeries
  else
    let filePath := fileEntry.path
    match env.loadFile filePath with
    | none => currentSeries
    | some dataset =>
      let parsed := extractTags filePath dataset
      if parsed.2 then currentSeries ++ [attachContour env filePath parsed.1]
      else currentSeries

/-- The inner loop of `loadSelectedSeries` (lines 51 to 110): `currentSeries`
starts empty and every entry of the series directory is visited once. -/
def readSeries {R : Type} [Zero R] [One R] (env : FileSystem R) (seriesPath : String) :
    DicomSeries R :=
  (env.directoryIterator seriesPath).foldl (loadFileEntry env) []

/-- The body of the outer loop of `loadSelectedSeries` (lines 47 to 116): a name
that is not a directory is skipped, a series with at least one frame is sorted
with `DicomFrame::operator<` and stored under the series path. -/
def loadSeries {R : Type} [Zero R] [One R] (env : FileSystem R) (patientPath : String)
    (m_seriesMap : SeriesMap R) (name : String) : SeriesMap R :=
  let seriesPath := env.join patientPath name
  if !env.isDirectory seriesPath then m_seriesMap
  else
    let currentSeries := readSeries env seriesPath
    if !currentSeries.isEmpty then
      mapAssign seriesPath (stdSort DicomFrame.lt currentSeries) m_seriesMap
    else m_seriesMap

/-- The method `DicomManager::clear`: the map is emptied. -/
def clear {R : Type} (_m_seriesMap : SeriesMap R) : SeriesMap R := []

/-- The body of the loop of `getFramesForTimepoint`: the frame at `timeIndex` is
appended when `timeIndex >= 0 && timeIndex < series.size()`. -/
def pushFrameAt {R : Type} (timeIndex : Int) (frames : List (DicomFrame R))
    (pair : String × DicomSeries R) : List (DicomFrame R) :=
  let series := pair.2
  if h : 0 ≤ timeIndex ∧ timeIndex.toNat < series.length then
    frames ++ [series.get ⟨timeIndex.toNat, h.2⟩]
  else frames

/-- The method `DicomManager::getFramesForTimepoint`: one pass over the map that
collects the frames, then a sort by the third position component. -/
def getFramesForTimepoint {R : Type} [LT R] [DecidableRel (fun a b : R => a < b)]
    (m_seriesMap : SeriesMap R) (timeIndex : Int) : List (DicomFrame R) :=
  let frames := m_seriesMap.foldl (pushFrameAt timeIndex) []
  stdSort (fun a b => decide (a.imagePosition 2 < b.imagePosition 2)) frames

/-- The method `DicomManager::getNumberOfFrames`: 0 for an empty map, otherwise
the running maximum of the series sizes, converted to `int`. -/
def getNumberOfFrames {R : Type} (m_seriesMap : SeriesMap R) : Int :=
  let maxFrames : Nat := 0
  if m_seriesMap.isEmpty then 0
  else
    castInt (m_seriesMap.foldl
      (fun maxFrames pair => if pair.2.length > maxFrames then pair.2.length else maxFrames)
      maxFrames)

/-- The method `DicomManager::loadSelectedSeries`: the new map and the returned
flag. -/
def loadSelectedSeries {R : Type} [Zero R] [One R] (env : FileSystem R)
    (m_seriesMap : SeriesMap R) (patientPath : String) (seriesNames : List String) :
    SeriesMap R × Bool :=
  let m_seriesMap := clear m_seriesMap
  let m_seriesMap := seriesNames.foldl (loadSeries env patientPath) m_seriesMap
  (m_seriesMap, !m_seriesMap.isEmpty)

/-- The public calls on a manager that act on the series index. -/
inductive Call (R : Type) where
  | clear
  | loadSelectedSeries (env : FileSystem R) (patientPath : String) (seriesNames : List String)
  | getFramesForTimepoint (timeIndex : Int)
  | getNumberOfFrames

/-- The series index after a call.  The two queries are `const` member functions:
they leave `m_seriesMap` as it is. -/
def step {R : Type} [Zero R] [One R] (m_seriesMap : SeriesMap R) : Call R → SeriesMap R
  | .clear => clear m_seriesMap
  | .loadSelectedSeries env patientPath seriesNames =>
    (loadSelectedSeries env m_seriesMap patientPath seriesNames).1
  | .getFramesForTimepoint _ => m_seriesMap
  | .getNumberOfFrames => m_seriesMap

/-- The decoder reports each of the six required tags of a dataset as present. -/
def allTagsPresent {R : Type} (dataset : DcmDataset R) : Bool :=
  dataset.imagePositionPatient.isSome && dataset.imageOrientationPatient.isSome
    && dataset.pixelSpacing.isSome && dataset.instanceNumber.isSome
    && dataset.rows.isSome && dataset.columns.isSome

/-- A directory entry is a regular file with extension `.dcm` that the decoder
loads, and the decoder reports all six tags as present: the file decodes to a
valid frame. -/
def decodesToFrame {R : Type} (env : FileSystem R) (fileEntry : DirectoryEntry) : Prop :=
  fileEntry.isRegularFile = true ∧ env.extension fileEntry.path = ".dcm"
    ∧ ∃ dataset, env.loadFile fileEntry.path = some dataset ∧ allTagsPresent dataset = true

/-- The frame that a directory entry adds to its series, if it adds one. -/
def frameOfEntry {R : Type} [Zero R] [One R] (env : FileSystem R) (fileEntry : DirectoryEntry) :
    Option (DicomFrame R) :=
  if fileEntry.isRegularFile = true ∧ env.extension fileEntry.path = ".dcm" then
    match env.loadFile fileEntry.path with
    | some dataset =>
      if allTagsPresent dataset then
        some (attachContour env fileEntry.path (extractTags fileEntry.path dataset).1)
      else none
    | none => none
  else none

/-- The series ordering invariant: in every stored series adjacent frames are in
ascending order of instance number. -/
def SeriesOrdered {R : Type} (m_seriesMap : SeriesMap R) : Prop :=
  ∀ pair ∈ m_seriesMap,
    List.Chain' (fun a b : DicomFrame R => a.instanceNumber ≤ b.instanceNumber) pair.2

/-- The cross-series timepoint set as the specification words it: every series
contributes its element at position `timeIndex` when `timeIndex` is not negative
and lies within the series, and nothing otherwise. -/
def timepointSelection {R : Type} (m_seriesMap : SeriesMap R) (timeIndex : Int) :
    List (DicomFrame R) :=
  m_seriesMap.filterMap (fun pair => if 0 ≤ timeIndex then pair.2[timeIndex.toNat]? else none)

/-- The non-emptiness invariant of the series index: no key maps to an empty
frame sequence. -/
def SeriesNonEmpty {R : Type} (m_seriesMap : SeriesMap R) : Prop :=
  ∀ pair ∈ m_seriesMap, pair.2 ≠ []

/-- The body of the loop of `discoverSeries`: the file name of an entry that is a
directory is pushed to `seriesNames`. -/
def pushSeriesName {R : Type} (env : FileSystem R) (seriesNames : List String)
    (entry : DirectoryEntry) : List String :=
  if entry.isDirectory then seriesNames ++ [env.filename entry.path] else seriesNames

/-- The method `DicomManager::discoverSeries`: the empty list for a path that does
not exist or is not a directory, otherwise the names of the entries that are
directories, sorted with `operator<` of `std::string`. -/
def discoverSeries {R : Type} (env : FileSystem R) (patientPath : String) : List String :=
  let seriesNames : List String := []
  if !env.pathExists patientPath || !env.isDirectory patientPath then seriesNames
  else
    let seriesNames := (env.directoryIterator patientPath).foldl (pushSeriesName env) seriesNames
    stdSort strLess seriesNames

/-- The names of the immediate subdirectories as the specification words it: one
name for every entry of the listing that is a directory, files left out. -/
def subdirectoryNames {R : Type} (env : FileSystem R) (patientPath : String) : List String :=
  ((env.directoryIterator patientPath).filter (fun entry => entry.isDirectory)).map
    (fun entry => env.filename entry.path)

end DicomManager

/-! ## The affine transform of a frame -/

namespace VtkManager

/-- The product `a.cross(b)` of two `Eigen::Vector3d`. -/
def cross {R : Type} [Mul R] [Sub R] (a b : Fin 3 → R) : Fin 3 → R :=
  ![a 1 * b 2 - a 2 * b 1, a 2 * b 0 - a 0 * b 2, a 0 * b 1 - a 1 * b 0]

/-- The matrix `Eigen::Matrix4d::Identity()`. -/
def identity4 {R : Type} [Zero R] [One R] : Fin 4 → Fin 4 → R :=
  fun i j => if i = j then 1 else 0

/-- The assignment `M.block<3,1>(0, col) = v`: rows 0 to 2 of column `col`
receive `v`. -/
def setBlock31 {R : Type} (M : Fin 4 → Fin 4 → R) (col : Fin 4) (v : Fin 3 → R) :
    Fin 4 → Fin 4 → R :=
  fun i j => if h : j = col ∧ i.val < 3 then v ⟨i.val, h.2⟩ else M i j

/-- The method `VtkManager::createTransformMatrix`; entry `(i, j)` of the result
is `vtk_matrix->GetElement(i, j)`. -/
def createTransformMatrix {R : Type} [Zero R] [One R] [Mul R] [Sub R]
    (frame : DicomFrame R) : Fin 4 → Fin 4 → R :=
  let row_vec : Fin 3 → R :=
    ![frame.imageOrientation 0, frame.imageOrientation 1, frame.imageOrientation 2]
  let col_vec : Fin 3 → R :=
    ![frame.imageOrientation 3, frame.imageOrientation 4, frame.imageOrientation 5]
  let pos_vec : Fin 3 → R :=
    ![frame.imagePosition 0, frame.imagePosition 1, frame.imagePosition 2]
  let normal_vec := cross row_vec col_vec
  let transform_eigen : Fin 4 → Fin 4 → R := identity4
  let transform_eigen := setBlock31 transform_eigen 0 row_vec
  let transform_eigen := setBlock31 transform_eigen 1 col_vec
  let transform_eigen := setBlock31 transform_eigen 2 normal_vec
  let transform_eigen := setBlock31 transform_eigen 3 pos_vec
  fun i j => transform_eigen i j

/-! ## Contours -/

/-- The method `vtkMatrix4x4::MultiplyPoint`: the product of the matrix and a
homogeneous point, each component summed from left to right. -/
def multiplyPoint {R : Type} [Add R] [Mul R] (M : Fin 4 → Fin 4 → R) (v : Fin 4 → R) :
    Fin 4 → R :=
  fun i => v 0 * M i 0 + v 1 * M i 1 + v 2 * M i 2 + v 3 * M i 3

/-- The struct `cnpy::NpyArray` as `createContourActor` reads it: the shape and
the buffer `arr.data<double>()`, where `data i` is the double at offset `i`.
For a shape `(2, N)` the first array row is at the offsets `0` to `N - 1` and the
second at the offsets `N` to `2 N - 1`. -/
structure NpyArray (R : Type) where
  shape : List Nat
  data : Nat → R

/-- A `vtkCellArray` under construction: the cells in insertion order, each with
the size given to `InsertNextCell` and the point ids inserted since. -/
abbrev CellArray := List (Nat × List Nat)

/-- The call `lines->InsertNextCell(npts)`: a new cell of the given size is
opened at the end. -/
def insertNextCell (lines : CellArray) (npts : Nat) : CellArray :=
  lines ++ [(npts, [])]

/-- The call `lines->InsertCellPoint(id)`: the id is added to the cell opened
last. -/
def insertCellPoint : CellArray → Nat → CellArray
  | [], _ => []
  | [(npts, ids)], id => [(npts, ids ++ [id])]
  | cell :: rest, id => cell :: insertCellPoint rest id

/-- The geometry of the actor returned by `createContourActor`: the `vtkPoints`
in insertion order and the `vtkCellArray` of lines of its `vtkPolyData`.  Colour
and line width are constants of the source and are left out. -/
structure ContourActor (R : Type) where
  points : List (Fin 3 → R)
  lines : CellArray

/-- The body of the loop of `createContourActor` (lines 129 to 146): the pixel
coordinates of point `i` are scaled by the pixel spacing, completed to a
homogeneous point, multiplied by the transform and inserted, and `i` is inserted
into the cell. -/
def contourStep {R : Type} [Zero R] [One R] [Add R] [Mul R] (frame : DicomFrame R)
    (transform : Fin 4 → Fin 4 → R) (x_coords y_coords : Nat → R)
    (state : List (Fin 3 → R) × CellArray) (i : Nat) : List (Fin 3 → R) × CellArray :=
  let pixel_x := x_coords i
  let pixel_y := y_coords i
  let mm_x := pixel_x * frame.pixelSpacing 1
  let mm_y := pixel_y * frame.pixelSpacing 0
  let p_local : Fin 4 → R := ![mm_x, mm_y, 0, 1]
  let p_world := multiplyPoint transform p_local
  (state.1 ++ [![p_world 0, p_world 1, p_world 2]], insertCellPoint state.2 i)

/-- The method `VtkManager::createContourActor`, with `cnpy::npy_load` as a
parameter; `none` is the null pointer. -/
def createContourActor {R : Type} [Zero R] [One R] [Add R] [Mul R] [Sub R]
    (npy_load : String → NpyArray R) (frame : DicomFrame R) : Option (ContourActor R) :=
  if frame.contourFilePath = "" then none
  else
    let arr := npy_load frame.contourFilePath
    match arr.shape with
    | [dim0, dim1] =>
      if dim0 != 2 then none
      else
        let data := arr.data
        let num_points := dim1
        if num_points < 2 then none
        else
          let transform := createTransformMatrix frame
          let points : List (Fin 3 → R) := []
          let lines : CellArray := []
          let x_coords : Nat → R := data
          let y_coords : Nat → R := fun i => data (num_points + i)
          let lines := insertNextCell lines (num_points + 1)
          let state := (List.range num_points).foldl
            (contourStep frame transform x_coords y_coords) (points, lines)
          let lines := insertCellPoint state.2 0
          some { points := state.1, lines := lines }
    | _ => none

/-- The contour mapping of one point: the world point that the loop body of
`createContourActor` inserts for the pixel coordinates `(pixel_x, pixel_y)`. -/
def contourPoint {R : Type} [Zero R] [One R] [Add R] [Mul R] [Sub R] (frame : DicomFrame R)
    (pixel_x pixel_y : R) : Fin 3 → R :=
  let p_world := multiplyPoint (createTransformMatrix frame)
    ![pixel_x * frame.pixelSpacing 1, pixel_y * frame.pixelSpacing 0, 0, 1]
  ![p_world 0, p_world 1, p_world 2]

/-! ## The shared image property -/

/-- The settings of the `vtkImageProperty` that the manager touches. -/
structure ImageProperty (R : Type) where
  opacity : R
  colorWindow : R
  colorLevel : R

/-- The call `std::min(a, b)` on doubles. -/
def stdMin {R : Type} [LinearOrder R] (a b : R) : R := if b < a then b else a

/-- The call `std::max(a, b)` on doubles. -/
def stdMax {R : Type} [LinearOrder R] (a b : R) : R := if a < b then b else a

/-- The part of the constructor `VtkManager::VtkManager` that creates the image
property: opacity 0.7, colour window 1000 and colour level 500. -/
def newImageProperty {R : Type} [LinearOrderedField R] : Option (ImageProperty R) :=
  some { opacity := 7 / 10, colorWindow := 1000, colorLevel := 500 }

/-- The method `VtkManager::setSliceOpacity` on the member `m_imageProperty`
(`none` is the null pointer): the opacity is clamped and stored. -/
def setSliceOpacity {R : Type} [LinearOrder R] [Zero R] [One R]
    (m_imageProperty : Option (ImageProperty R)) (opacity : R) : Option (ImageProperty R) :=
  match m_imageProperty with
  | some property =>
    let clamped_opacity := stdMax 0 (stdMin 1 opacity)
    some { property with opacity := clamped_opacity }
  | none => none

end VtkManager

end Dicom



/-! ## A concrete environment

One patient directory `patient` with one series directory `patient/SAX` whose
entries are the given files, all regular.  The path functions split a path at
its last `/` and a file name at its last `.`. -/

namespace Dicom.Example

/-- The part of a path after its last `/`. -/
def pathFilename (p : String) : String :=
  String.mk (p.data.reverse.takeWhile (fun c => c != '/')).reverse

/-- The part of a path before its last `/`. -/
def pathParent (p : String) : String :=
  String.mk ((p.data.reverse.dropWhile (fun c => c != '/')).drop 1).reverse

/-- The extension of the file name of a path, with its dot. -/
def pathExtension (p : String) : String :=
  let name := (pathFilename p).data
  if name.contains '.' then String.mk ('.' :: (name.reverse.takeWhile (fun c => c != '.')).reverse)
  else ""

/-- The file name of a path without its extension. -/
def pathStem (p : String) : String :=
  let name := (pathFilename p).data
  if name.contains '.' then String.mk ((name.reverse.dropWhile (fun c => c != '.')).drop 1).reverse
  else String.mk name

/-- The file system with the given files in `patient/SAX`. -/
def fileSystem (files : List (String × DcmDataset Int)) : FileSystem Int where
  isDirectory := fun p => decide (p = "patient" ∨ p = "patient/SAX")
  pathExists := fun p =>
    decide (p = "patient" ∨ p = "patient/SAX") || files.any (fun f => f.1 == p)
  directoryIterator := fun p =>
    if p = "patient/SAX" then files.map (fun f => ⟨f.1, true, false⟩)
    else if p = "patient" then [⟨"patient/SAX", false, true⟩]
    else []
  join := fun a b => a ++ "/" ++ b
  extension := pathExtension
  stem := pathStem
  parentPath := pathParent
  filename := pathFilename
  loadFile := fun p => (files.find? (fun f => f.1 == p)).map (fun f => f.2)

/-- A dataset with all six tags: instance number `inst`, position `(0, 0, z)`,
axis-aligned orientation, unit spacing, 256 rows and columns. -/
def dataset (inst : Int) (z : Int) : DcmDataset Int where
  imagePositionPatient := some [0, 0, z]
  imageOrientationPatient := some [1, 0, 0, 0, 1, 0]
  pixelSpacing := some [1, 1]
  instanceNumber := some inst
  rows := some 256
  columns := some 256

/-- The end-to-end example of the specification: three files with instance
numbers 2, 0, 1 at z = 5, 1, 3. -/
def sax : FileSystem Int :=
  fileSystem [("patient/SAX/a.dcm", dataset 2 5), ("patient/SAX/b.dcm", dataset 0 1),
    ("patient/SAX/c.dcm", dataset 1 3)]

/-- Two files: `a.dcm` has all six tags, `b.dcm` lacks PixelSpacing only. -/
def missingSpacing : FileSystem Int :=
  fileSystem [("patient/SAX/a.dcm", dataset 0 1),
    ("patient/SAX/b.dcm", { dataset 1 2 with pixelSpacing := none })]

/-- One file with all six tags whose ImagePositionPatient value holds the two
numbers 7 and 8 only. -/
def shortPosition : FileSystem Int :=
  fileSystem [("patient/SAX/a.dcm", { dataset 0 1 with imagePositionPatient := some [7, 8] })]

/-- One file with all six tags whose Rows value is 0. -/
def zeroRows : FileSystem Int :=
  fileSystem [("patient/SAX/a.dcm", { dataset 0 1 with rows := some 0 })]

/-- A patient directory that lists the directories `B`, `A`, `C` and two
regular files, in this order. -/
def patientListing : FileSystem Int :=
  { fileSystem [] with
    directoryIterator := fun p =>
      if p = "patient" then
        [⟨"patient/B", false, true⟩, ⟨"patient/notes.txt", true, false⟩,
          ⟨"patient/A", false, true⟩, ⟨"patient/scan.dcm", true, false⟩,
          ⟨"patient/C", false, true⟩]
      else [] }

/-- A frame with a contour path, position (10, 20, 30), row direction (0, 1, 0),
column direction (0, 0, 1), row spacing 2 and column spacing 3. -/
def contourFrame : DicomFrame Int :=
  { DicomFrame.init Int with
    contourFilePath := "patient/SAX/a_cont.npy"
    imagePosition := ![10, 20, 30]
    imageOrientation := ![0, 1, 0, 0, 0, 1]
    pixelSpacing := ![2, 3] }

/-- A decoder that returns, for every path, the array of the given shape with
the buffer 1, 2, 3, 4, 5, 6. -/
def npyOfShape (shape : List Nat) : String → VtkManager.NpyArray Int :=
  fun _ => { shape := shape, data := fun i => ([1, 2, 3, 4, 5, 6] : List Int).getD i 0 }

/-- A series directory whose only file lacks PixelSpacing. -/
def noValidFrame : FileSystem Int :=
  fileSystem [("patient/SAX/b.dcm", { dataset 1 2 with pixelSpacing := none })]

/-- An index over `double` of two series of one frame each, the first at z = NaN
and the second at z = 1. -/
def nanIndex : SeriesMap Double :=
  [("a", [{ DicomFrame.init Double with
              filePath := "a/1.dcm", imagePosition := ![0, 0, Double.nan] }]),
    ("b", [{ DicomFrame.init Double with
              filePath := "b/1.dcm", imagePosition := ![0, 0, 1] }])]

/-- An index over `double` of three series of one frame each, at z = 2.5,
z = 0.1 and z = plus infinity. -/
def numberIndex : SeriesMap Double :=
  [("a", [{ DicomFrame.init Double with imagePosition := ![0, 0, Double.dyadic 5 1] }]),
    ("b", [{ DicomFrame.init Double with
              imagePosition := ![0, 0, Double.dyadic 3602879701896397 55] }]),
    ("c", [{ DicomFrame.init Double with imagePosition := ![0, 0, Double.inf false] }])]

/-- A frame over `double` with a contour path, position (10.5, 20.25, 30), row
direction (0.6, 0.8, 0), column direction (-0.8, 0.6, 0) and pixel spacing
(1.5, 1.5): the image plane z = 30, rotated about the z axis. -/
def rotatedFrame : DicomFrame Double :=
  { DicomFrame.init Double with
    contourFilePath := "patient/SAX/a_cont.npy"
    imagePosition := ![Double.dyadic 21 1, Double.dyadic 81 2, Double.dyadic 30 0]
    imageOrientation := ![Double.dyadic 5404319552844595 53, Double.dyadic 3602879701896397 52,
      0, Double.dyadic (-3602879701896397) 52, Double.dyadic 5404319552844595 53, 0]
    pixelSpacing := ![Double.dyadic 3 1, Double.dyadic 3 1] }

/-- A frame over `double` with a contour path, position (10.5, 20.25, 30), row
direction (0.6, 0.8, 0), column direction (0, 0, 1) and pixel spacing
(1.5, 1.5): a plane that contains the z axis. -/
def tiltedFrame : DicomFrame Double :=
  { DicomFrame.init Double with
    contourFilePath := "patient/SAX/a_cont.npy"
    imagePosition := ![Double.dyadic 21 1, Double.dyadic 81 2, Double.dyadic 30 0]
    imageOrientation := ![Double.dyadic 5404319552844595 53, Double.dyadic 3602879701896397 52,
      0, 0, 0, 1]
    pixelSpacing := ![Double.dyadic 3 1, Double.dyadic 3 1] }

/-- A decoder that returns, for every path, the array of shape (2, 2) over
`double` with the buffer 1, 0, `y`, 0: the points (1, `y`) and (0, 0). -/
def npyTwoPoints (y : Double) : String → VtkManager.NpyArray Double :=
  fun _ => { shape := [2, 2], data := fun i => ([1, 0, y, 0] : List Double).getD i 0 }

/-- A prior index state with one series that no load of the examples creates. -/
def staleIndex : SeriesMap Int :=
  [("old", [{ DicomFrame.init Int with instanceNumber := 9 }, DicomFrame.init Int])]

end Dicom.Example

/-! ## Theorems -/

namespace Dicom

/-! ### The sort -/

theorem sortInsert_perm {α : Type} (comp : α → α → Bool) (x : α) (l : List α) :
    (sortInsert comp x l).Perm (x :: l) := by
  induction l with
  | nil => exact List.Perm.refl _
  | cons y ys ih =>
    unfold sortInsert
    split
    · exact (List.Perm.cons y ih).trans (List.Perm.swap x y ys)
    · exact List.Perm.refl _

theorem stdSort_perm {α : Type} (comp : α → α → Bool) (l : List α) :
    (stdSort comp l).Perm l := by
  induction l with
  | nil => exact List.Perm.refl _
  | cons x xs ih =>
    unfold stdSort
    exact (sortInsert_perm comp x _).trans (List.Perm.cons x ih)

theorem sortInsert_sorted {α K : Type} [LinearOrder K] (key : α → K) (x : α) (l : List α)
    (h : l.Pairwise (fun a b => key a ≤ key b)) :
    (sortInsert (fun a b => decide (key a < key b)) x l).Pairwise
      (fun a b => key a ≤ key b) := by
  induction l with
  | nil => simp [sortInsert]
  | cons y ys ih =>
    rw [List.pairwise_cons] at h
    unfold sortInsert
    by_cases hyx : key y < key x
    · simp only [hyx, decide_True, if_true]
      rw [List.pairwise_cons]
      refine ⟨?_, ih h.2⟩
      intro b hb
      have hb2 := (sortInsert_perm (fun a b => decide (key a < key b)) x ys).mem_iff.mp hb
      rcases List.mem_cons.mp hb2 with hbx | hbys
      · rw [hbx]; exact le_of_lt hyx
      · exact h.1 b hbys
    · simp only [hyx, decide_False, Bool.false_eq_true, if_false]
      have hxy : key x ≤ key y := not_lt.mp hyx
      rw [List.pairwise_cons]
      refine ⟨?_, List.pairwise_cons.mpr h⟩
      intro b hb
      rcases List.mem_cons.mp hb with hby | hbys
      · rw [hby]; exact hxy
      · exact le_trans hxy (h.1 b hbys)

theorem stdSort_sorted {α K : Type} [LinearOrder K] (key : α → K) (l : List α) :
    (stdSort (fun a b => decide (key a < key b)) l).Pairwise (fun a b => key a ≤ key b) := by
  induction l with
  | nil => simp [stdSort]
  | cons x xs ih =>
    unfold stdSort
    exact sortInsert_sorted key x _ ih

namespace DicomManager

/-! ### The timepoint assembler -/

theorem pushFrameAt_eq {R : Type} (t : Int) (acc : List (DicomFrame R))
    (pair : String × DicomSeries R) :
    pushFrameAt t acc pair
      = acc ++ (if 0 ≤ t then pair.2[t.toNat]? else none).toList := by
  unfold pushFrameAt
  by_cases h0 : 0 ≤ t
  · by_cases h1 : t.toNat < pair.2.length
    · simp [h0, h1, List.getElem?_eq_getElem]
    · simp [h0, h1, List.getElem?_eq_none (Nat.le_of_not_lt h1)]
  · simp [h0]

theorem foldl_pushFrameAt {R : Type} (t : Int) (m : SeriesMap R) (acc : List (DicomFrame R)) :
    m.foldl (pushFrameAt t) acc = acc ++ timepointSelection m t := by
  induction m generalizing acc with
  | nil => simp [timepointSelection]
  | cons pair rest ih =>
    rw [List.foldl_cons, ih, pushFrameAt_eq]
    unfold timepointSelection
    rw [List.filterMap_cons]
    cases hx : (if 0 ≤ t then pair.2[t.toNat]? else none) with
    | none => simp
    | some f => simp

theorem Double.le_of_lt {a b : Double} (h : Double.lt a b = true) : Double.le a b = true := by
  cases a <;> cases b <;> simp_all [Double.lt, Double.le]
  omega

theorem Double.le_of_not_lt {a b : Double} (ha : a ≠ Double.nan) (hb : b ≠ Double.nan)
    (h : Double.lt a b = false) : Double.le b a = true := by
  cases a <;> cases b <;> simp_all [Double.lt, Double.le]
  · rename_i n1 n2
    cases n1 <;> cases n2 <;> simp_all

theorem Double.le_trans {a b c : Double} (hab : Double.le a b = true)
    (hbc : Double.le b c = true) : Double.le a c = true := by
  cases a <;> cases b <;> cases c <;> simp_all [Double.le]
  · rename_i n1 n2 n3
    cases n1 <;> cases n2 <;> cases n3 <;> simp_all
  · omega

theorem sortInsert_sorted_double {α : Type} (key : α → Double) (x : α) (l : List α)
    (hx : key x ≠ Double.nan) (hl : ∀ a ∈ l, key a ≠ Double.nan)
    (h : l.Pairwise (fun a b => key a ≤ key b)) :
    (sortInsert (fun a b => decide (key a < key b)) x l).Pairwise
      (fun a b => key a ≤ key b) := by
  induction l with
  | nil => simp [sortInsert]
  | cons y ys ih =>
    rw [List.pairwise_cons] at h
    have hy : key y ≠ Double.nan := hl y (List.mem_cons_self _ _)
    have hys : ∀ a ∈ ys, key a ≠ Double.nan := fun a ha => hl a (List.mem_cons_of_mem _ ha)
    unfold sortInsert
    by_cases hyx : key y < key x
    · simp only [hyx, decide_True, if_true]
      rw [List.pairwise_cons]
      refine ⟨?_, ih hys h.2⟩
      intro b hb
      have hb2 := (sortInsert_perm (fun a b => decide (key a < key b)) x ys).mem_iff.mp hb
      rcases List.mem_cons.mp hb2 with hbx | hbys
      · rw [hbx]; exact Double.le_of_lt hyx
      · exact h.1 b hbys
    · simp only [hyx, decide_False, Bool.false_eq_true, if_false]
      have hxy : key x ≤ key y :=
        Double.le_of_not_lt hy hx (by simpa [LT.lt] using hyx)
      rw [List.pairwise_cons]
      refine ⟨?_, List.pairwise_cons.mpr h⟩
      intro b hb
      rcases List.mem_cons.mp hb with hby | hbys
      · rw [hby]; exact hxy
      · exact Double.le_trans hxy (h.1 b hbys)

theorem stdSort_sorted_double {α : Type} (key : α → Double) (l : List α)
    (hl : ∀ a ∈ l, key a ≠ Double.nan) :
    (stdSort (fun a b => decide (key a < key b)) l).Pairwise (fun a b => key a ≤ key b) := by
  induction l with
  | nil => simp [stdSort]
  | cons x xs ih =>
    unfold stdSort
    have hxs : ∀ a ∈ xs, key a ≠ Double.nan := fun a ha => hl a (List.mem_cons_of_mem _ ha)
    refine sortInsert_sorted_double key x _ (hl x (List.mem_cons_self _ _)) ?_ (ih hxs)
    intro a ha
    exact hxs a ((stdSort_perm _ xs).mem_iff.mp ha)

/-- C2 (as amended): for every series index over `double` and every time index
for which no frame at that position of a stored series has NaN as third position
component, adjacent members of the result of `getFramesForTimepoint` are in
ascending order of the third position component. -/
theorem getFramesForTimepoint_sorted_of_no_nan (m_seriesMap : SeriesMap Double)
    (timeIndex : Int)
    (hnan : ∀ f ∈ timepointSelection m_seriesMap timeIndex, f.imagePosition 2 ≠ Double.nan) :
    List.Chain' (fun a b : DicomFrame Double => a.imagePosition 2 ≤ b.imagePosition 2)
      (getFramesForTimepoint m_seriesMap timeIndex) := by
  unfold getFramesForTimepoint
  have hfold := foldl_pushFrameAt timeIndex m_seriesMap []
  simp only [List.nil_append] at hfold
  rw [hfold]
  exact List.Pairwise.chain'
    (stdSort_sorted_double (fun f : DicomFrame Double => f.imagePosition 2) _ hnan)

/-- Witness for C2: frames at z = 2.5, z = 0.1 and z = plus infinity come out
as 0.1, 2.5, plus infinity. -/
theorem getFramesForTimepoint_sorted_of_no_nan_witness :
    (getFramesForTimepoint Example.numberIndex 0).map (fun f => f.imagePosition 2)
        = [Double.dyadic 3602879701896397 55, Double.dyadic 5 1, Double.inf false]
      ∧ List.Chain' (fun a b : DicomFrame Double => a.imagePosition 2 ≤ b.imagePosition 2)
          (getFramesForTimepoint Example.numberIndex 0) :=
  ⟨by decide, getFramesForTimepoint_sorted_of_no_nan Example.numberIndex 0 (by decide)⟩

theorem not_chain_of_nan_head (l : List (DicomFrame Double)) (z : Double)
    (h : l.map (fun f => f.imagePosition 2) = [Double.nan, z]) :
    ¬ List.Chain' (fun a b : DicomFrame Double => a.imagePosition 2 ≤ b.imagePosition 2) l := by
  rcases l with _ | ⟨a, _ | ⟨b, _ | ⟨c, rest⟩⟩⟩
  · simp at h
  · simp at h
  · simp only [List.map_cons, List.map_nil, List.cons.injEq, and_true] at h
    rw [List.chain'_pair, h.1]
    intro hle
    cases hle
  · simp at h

/-- Counterexample to C2 as stated: in an index over `double` whose two series
hold one frame at z = NaN and one frame at z = 1, timepoint 0 is returned in the
order NaN, 1, which is not ascending; and the other order of the two frames is
not ascending either, since no comparison with NaN holds. -/
theorem getFramesForTimepoint_nan_not_sorted :
    (getFramesForTimepoint Example.nanIndex 0).map (fun f => f.imagePosition 2)
        = [Double.nan, 1]
      ∧ ¬ List.Chain' (fun a b : DicomFrame Double => a.imagePosition 2 ≤ b.imagePosition 2)
          (getFramesForTimepoint Example.nanIndex 0)
      ∧ ¬ ((1 : Double) ≤ Double.nan) ∧ ¬ (Double.nan ≤ (1 : Double)) :=
  ⟨by decide, not_chain_of_nan_head _ 1 (by decide), by decide, by decide⟩

/-! ### The maximum series length -/

theorem foldl_max_ge {R : Type} (m : SeriesMap R) (acc : Nat) :
    acc ≤ m.foldl (fun mx pair => if pair.2.length > mx then pair.2.length else mx) acc
      ∧ ∀ pair ∈ m, pair.2.length
          ≤ m.foldl (fun mx pair => if pair.2.length > mx then pair.2.length else mx) acc := by
  induction m generalizing acc with
  | nil => simp
  | cons pair rest ih =>
    rw [List.foldl_cons]
    have h := ih (if pair.2.length > acc then pair.2.length else acc)
    refine ⟨?_, ?_⟩
    · refine le_trans ?_ h.1
      split <;> omega
    · intro q hq
      rcases List.mem_cons.mp hq with hq | hq
      · rw [hq]
        refine le_trans ?_ h.1
        split <;> omega
      · exact h.2 q hq

theorem foldl_max_attained {R : Type} (m : SeriesMap R) (acc : Nat) :
    m.foldl (fun mx pair => if pair.2.length > mx then pair.2.length else mx) acc = acc
      ∨ ∃ pair ∈ m,
          m.foldl (fun mx pair => if pair.2.length > mx then pair.2.length else mx) acc
            = pair.2.length := by
  induction m generalizing acc with
  | nil => simp
  | cons pair rest ih =>
    rw [List.foldl_cons]
    rcases ih (if pair.2.length > acc then pair.2.length else acc) with h | ⟨q, hq, h⟩
    · by_cases hc : pair.2.length > acc
      · right
        refine ⟨pair, List.mem_cons_self _ _, ?_⟩
        rw [h, if_pos hc]
      · left
        rw [h, if_neg hc]
    · right
      exact ⟨q, List.mem_cons_of_mem _ hq, h⟩

theorem castInt_of_lt (n : Nat) (h : n < 2 ^ 31) : castInt n = (n : Int) := by
  unfold castInt
  have h2 : (n + 2 ^ 31) % 2 ^ 32 = n + 2 ^ 31 := Nat.mod_eq_of_lt (by omega)
  rw [h2]
  push_cast
  ring

/-- C9 (as amended): when every stored series has fewer than 2^31 frames, the
result of `getNumberOfFrames` is at least the length of every stored series, it
is the length of some stored series when the index is not empty, and it is 0
when the index is empty. -/
theorem getNumberOfFrames_is_max {R : Type} (m_seriesMap : SeriesMap R)
    (hfit : ∀ pair ∈ m_seriesMap, pair.2.length < 2 ^ 31) :
    (∀ pair ∈ m_seriesMap, (pair.2.length : Int) ≤ getNumberOfFrames m_seriesMap)
      ∧ (m_seriesMap ≠ [] →
          ∃ pair ∈ m_seriesMap, getNumberOfFrames m_seriesMap = (pair.2.length : Int))
      ∧ (m_seriesMap = [] → getNumberOfFrames m_seriesMap = 0) := by
  cases m_seriesMap with
  | nil => simp [getNumberOfFrames]
  | cons p rest =>
    have hge := foldl_max_ge (p :: rest) 0
    have hatt : ∃ pair ∈ p :: rest,
        (p :: rest).foldl (fun mx pair => if pair.2.length > mx then pair.2.length else mx) 0
          = pair.2.length := by
      rcases foldl_max_attained (p :: rest) 0 with h | h
      · refine ⟨p, List.mem_cons_self _ _, ?_⟩
        have := hge.2 p (List.mem_cons_self _ _)
        omega
      · exact h
    obtain ⟨q, hq, hqe⟩ := hatt
    have hval : getNumberOfFrames (p :: rest) = (q.2.length : Int) := by
      unfold getNumberOfFrames
      simp only [List.isEmpty_cons, Bool.false_eq_true, if_false]
      rw [hqe]
      exact castInt_of_lt _ (hfit q hq)
    refine ⟨?_, ?_, ?_⟩
    · intro pair hpair
      rw [hval]
      have := hge.2 pair hpair
      rw [hqe] at this
      exact_mod_cast this
    · intro _
      exact ⟨q, hq, hval⟩
    · intro h
      exact absurd h (List.cons_ne_nil _ _)

/-- Witness for C9: an index of two series, of 2 frames and of 1 frame. -/
theorem getNumberOfFrames_is_max_witness :
    (∀ pair ∈ ([("a", [DicomFrame.init Int, DicomFrame.init Int]),
          ("b", [DicomFrame.init Int])] : SeriesMap Int), pair.2.length < 2 ^ 31)
      ∧ getNumberOfFrames ([("a", [DicomFrame.init Int, DicomFrame.init Int]),
          ("b", [DicomFrame.init Int])] : SeriesMap Int) = 2
      ∧ ∀ pair ∈ ([("a", [DicomFrame.init Int, DicomFrame.init Int]),
          ("b", [DicomFrame.init Int])] : SeriesMap Int),
          (pair.2.length : Int) ≤ getNumberOfFrames ([("a", [DicomFrame.init Int,
            DicomFrame.init Int]), ("b", [DicomFrame.init Int])] : SeriesMap Int) :=
  ⟨by decide, by decide,
    (getNumberOfFrames_is_max ([("a", [DicomFrame.init Int, DicomFrame.init Int]),
      ("b", [DicomFrame.init Int])] : SeriesMap Int) (by decide)).1⟩

theorem getNumberOfFrames_singleton {R : Type} (key : String) (series : DicomSeries R) :
    getNumberOfFrames [(key, series)] = castInt series.length := by
  unfold getNumberOfFrames
  simp only [List.isEmpty_cons, Bool.false_eq_true, if_false, List.foldl_cons, List.foldl_nil]
  by_cases h : series.length > 0
  · rw [if_pos h]
  · rw [if_neg h]
    congr 1
    omega

/-- Counterexample to C9 as stated: for an index whose only series has 2^31
frames, `getNumberOfFrames` returns -2^31, which is below the length of that
series. -/
theorem getNumberOfFrames_wraps :
    getNumberOfFrames
        ([("s", List.replicate (2 ^ 31) (DicomFrame.init Int))] : SeriesMap Int) = -(2 ^ 31)
      ∧ ¬ (∀ pair ∈ ([("s", List.replicate (2 ^ 31) (DicomFrame.init Int))] : SeriesMap Int),
            (pair.2.length : Int) ≤ getNumberOfFrames
              ([("s", List.replicate (2 ^ 31) (DicomFrame.init Int))] : SeriesMap Int)) := by
  have hval : getNumberOfFrames
      ([("s", List.replicate (2 ^ 31) (DicomFrame.init Int))] : SeriesMap Int) = -(2 ^ 31) := by
    rw [getNumberOfFrames_singleton, List.length_replicate]
    decide
  refine ⟨hval, ?_⟩
  intro h
  have h1 := h ("s", List.replicate (2 ^ 31) (DicomFrame.init Int)) (List.mem_singleton.mpr rfl)
  rw [hval, List.length_replicate] at h1
  norm_num at h1

/-! ### Loading: tag extraction -/

theorem extractTags_success {R : Type} [Zero R] [One R] (filePath : String)
    (dataset : DcmDataset R) :
    (extractTags filePath dataset).2 = allTagsPresent dataset := by
  unfold extractTags allTagsPresent scanTag
  cases dataset.imagePositionPatient <;> cases dataset.imageOrientationPatient <;>
    cases dataset.pixelSpacing <;> cases dataset.instanceNumber <;>
    cases dataset.rows <;> cases dataset.columns <;> rfl

theorem extractTags_filePath {R : Type} [Zero R] [One R] (filePath : String)
    (dataset : DcmDataset R) :
    (extractTags filePath dataset).1.filePath = filePath := rfl

theorem attachContour_fields {R : Type} (env : FileSystem R) (filePath : String)
    (frame : DicomFrame R) :
    (attachContour env filePath frame).filePath = frame.filePath
      ∧ (attachContour env filePath frame).instanceNumber = frame.instanceNumber
      ∧ (attachContour env filePath frame).imagePosition = frame.imagePosition
      ∧ (attachContour env filePath frame).imageOrientation = frame.imageOrientation
      ∧ (attachContour env filePath frame).pixelSpacing = frame.pixelSpacing
      ∧ (attachContour env filePath frame).rows = frame.rows
      ∧ (attachContour env filePath frame).cols = frame.cols := by
  unfold attachContour
  by_cases h : env.pathExists (env.join (env.parentPath filePath)
      (env.stem filePath ++ "_cont.npy")) = true
  · simp [h]
  · simp [h]

theorem loadFileEntry_eq {R : Type} [Zero R] [One R] (env : FileSystem R)
    (acc : DicomSeries R) (e : DirectoryEntry) :
    loadFileEntry env acc e = acc ++ (frameOfEntry env e).toList := by
  unfold loadFileEntry frameOfEntry
  by_cases h1 : e.isRegularFile = true
  · by_cases h2 : env.extension e.path = ".dcm"
    · cases h3 : env.loadFile e.path with
      | none => simp [h1, h2, h3]
      | some ds =>
        by_cases h4 : allTagsPresent ds = true
        · simp [h1, h2, h3, extractTags_success, h4]
        · simp [h1, h2, h3, extractTags_success, h4]
    · simp [h1, h2]
  · simp [h1]

theorem foldl_loadFileEntry {R : Type} [Zero R] [One R] (env : FileSystem R)
    (entries : List DirectoryEntry) (acc : DicomSeries R) :
    entries.foldl (loadFileEntry env) acc = acc ++ entries.filterMap (frameOfEntry env) := by
  induction entries generalizing acc with
  | nil => simp
  | cons e rest ih =>
    rw [List.foldl_cons, ih, loadFileEntry_eq, List.filterMap_cons]
    cases frameOfEntry env e <;> simp

theorem readSeries_eq {R : Type} [Zero R] [One R] (env : FileSystem R) (seriesPath : String) :
    readSeries env seriesPath
      = (env.directoryIterator seriesPath).filterMap (frameOfEntry env) := by
  unfold readSeries
  rw [foldl_loadFileEntry, List.nil_append]

theorem frameOfEntry_eq_some {R : Type} [Zero R] [One R] (env : FileSystem R)
    (e : DirectoryEntry) (f : DicomFrame R) :
    frameOfEntry env e = some f ↔
      e.isRegularFile = true ∧ env.extension e.path = ".dcm"
        ∧ ∃ ds, env.loadFile e.path = some ds ∧ allTagsPresent ds = true
          ∧ f = attachContour env e.path (extractTags e.path ds).1 := by
  unfold frameOfEntry
  by_cases h1 : e.isRegularFile = true ∧ env.extension e.path = ".dcm"
  · rw [if_pos h1]
    cases h3 : env.loadFile e.path with
    | none => simp
    | some ds =>
      by_cases h4 : allTagsPresent ds = true
      · simp only [h4, if_true, Option.some.injEq]
        constructor
        · intro h
          exact ⟨h1.1, h1.2, ds, rfl, h4, h.symm⟩
        · rintro ⟨_, _, ds2, hds, _, hf⟩
          cases hds
          exact hf.symm
      · simp only [h4, Bool.false_eq_true, if_false]
        constructor
        · intro h
          cases h
        · rintro ⟨_, _, ds2, hds, hc, _⟩
          cases hds
          exact absurd hc h4
  · rw [if_neg h1]
    constructor
    · intro h
      cases h
    · rintro ⟨ha, hb, _⟩
      exact absurd ⟨ha, hb⟩ h1

theorem mem_readSeries {R : Type} [Zero R] [One R] (env : FileSystem R) (seriesPath : String)
    (f : DicomFrame R) :
    f ∈ readSeries env seriesPath ↔
      ∃ e ∈ env.directoryIterator seriesPath,
        e.isRegularFile = true ∧ env.extension e.path = ".dcm"
          ∧ ∃ ds, env.loadFile e.path = some ds ∧ allTagsPresent ds = true
            ∧ f = attachContour env e.path (extractTags e.path ds).1 := by
  rw [readSeries_eq, List.mem_filterMap]
  constructor
  · rintro ⟨e, he, hf⟩
    exact ⟨e, he, (frameOfEntry_eq_some env e f).mp hf⟩
  · rintro ⟨e, he, h⟩
    exact ⟨e, he, (frameOfEntry_eq_some env e f).mpr h⟩

theorem readSeries_ne_nil_iff {R : Type} [Zero R] [One R] (env : FileSystem R)
    (seriesPath : String) :
    readSeries env seriesPath ≠ [] ↔
      ∃ e ∈ env.directoryIterator seriesPath, decodesToFrame env e := by
  constructor
  · intro h
    obtain ⟨f, hf⟩ := List.exists_mem_of_ne_nil _ h
    obtain ⟨e, he, h1, h2, ds, h3, h4, _⟩ := (mem_readSeries env seriesPath f).mp hf
    exact ⟨e, he, h1, h2, ds, h3, h4⟩
  · rintro ⟨e, he, h1, h2, ds, h3, h4⟩ hnil
    have : attachContour env e.path (extractTags e.path ds).1 ∈ readSeries env seriesPath :=
      (mem_readSeries env seriesPath _).mpr ⟨e, he, h1, h2, ds, h3, h4, rfl⟩
    rw [hnil] at this
    cases this

/-! ### Loading: the map -/

theorem mem_mapAssign_self {R : Type} (k : String) (v : DicomSeries R) (m : SeriesMap R) :
    (k, v) ∈ mapAssign k v m := by
  induction m with
  | nil => simp [mapAssign]
  | cons kv rest ih =>
    obtain ⟨k2, v2⟩ := kv
    unfold mapAssign
    split
    · exact List.mem_cons_self _ _
    · split
      · exact List.mem_cons_self _ _
      · exact List.mem_cons_of_mem _ ih

theorem mem_mapAssign_of_mem {R : Type} (k : String) (v : DicomSeries R) (m : SeriesMap R)
    (kv : String × DicomSeries R) (hmem : kv ∈ m) (hne : kv.1 ≠ k) :
    kv ∈ mapAssign k v m := by
  induction m with
  | nil => cases hmem
  | cons kv2 rest ih =>
    obtain ⟨k2, v2⟩ := kv2
    unfold mapAssign
    split
    · exact List.mem_cons_of_mem _ hmem
    · split
      · rename_i hk
        rcases List.mem_cons.mp hmem with h | h
        · exfalso
          apply hne
          rw [h, hk]
        · exact List.mem_cons_of_mem _ h
      · rcases List.mem_cons.mp hmem with h | h
        · rw [h]
          exact List.mem_cons_self _ _
        · exact List.mem_cons_of_mem _ (ih h)

theorem mem_of_mem_mapAssign {R : Type} (k : String) (v : DicomSeries R) (m : SeriesMap R)
    (kv : String × DicomSeries R) (hmem : kv ∈ mapAssign k v m) :
    kv = (k, v) ∨ kv ∈ m := by
  induction m with
  | nil =>
    left
    simpa [mapAssign] using hmem
  | cons kv2 rest ih =>
    obtain ⟨k2, v2⟩ := kv2
    unfold mapAssign at hmem
    split at hmem
    · rcases List.mem_cons.mp hmem with h | h
      · exact Or.inl h
      · exact Or.inr h
    · split at hmem
      · rcases List.mem_cons.mp hmem with h | h
        · exact Or.inl h
        · exact Or.inr (List.mem_cons_of_mem _ h)
      · rcases List.mem_cons.mp hmem with h | h
        · right
          rw [h]
          exact List.mem_cons_self _ _
        · rcases ih h with h2 | h2
          · exact Or.inl h2
          · exact Or.inr (List.mem_cons_of_mem _ h2)

/-! ### Loading: the loop over the requested names -/

theorem isEmpty_false_iff {α : Type} (l : List α) : l.isEmpty = false ↔ l ≠ [] := by
  cases l <;> simp

theorem loadSeries_eq {R : Type} [Zero R] [One R] (env : FileSystem R) (patientPath : String)
    (m : SeriesMap R) (name : String) :
    loadSeries env patientPath m name
      = if env.isDirectory (env.join patientPath name) = true
            ∧ (readSeries env (env.join patientPath name)).isEmpty = false then
          mapAssign (env.join patientPath name)
            (stdSort DicomFrame.lt (readSeries env (env.join patientPath name))) m
        else m := by
  unfold loadSeries
  by_cases h1 : env.isDirectory (env.join patientPath name) = true
  · cases h2 : readSeries env (env.join patientPath name) with
    | nil => simp [h1, h2]
    | cons f rest => simp [h1, h2]
  · simp [h1]

theorem mem_foldl_loadSeries {R : Type} [Zero R] [One R] (env : FileSystem R)
    (patientPath : String) (names : List String) (m : SeriesMap R)
    (kv : String × DicomSeries R)
    (hmem : kv ∈ names.foldl (loadSeries env patientPath) m) :
    kv ∈ m ∨ ∃ name ∈ names, kv.1 = env.join patientPath name
      ∧ env.isDirectory kv.1 = true ∧ readSeries env kv.1 ≠ []
      ∧ kv.2 = stdSort DicomFrame.lt (readSeries env kv.1) := by
  induction names generalizing m with
  | nil => exact Or.inl hmem
  | cons name rest ih =>
    rw [List.foldl_cons] at hmem
    rcases ih _ hmem with h | ⟨n, hn, h⟩
    · rw [loadSeries_eq] at h
      split at h
      · rename_i hok
        rcases mem_of_mem_mapAssign _ _ _ _ h with h2 | h2
        · right
          refine ⟨name, List.mem_cons_self _ _, ?_⟩
          rw [h2]
          exact ⟨rfl, hok.1, (isEmpty_false_iff _).mp hok.2, rfl⟩
        · exact Or.inl h2
      · exact Or.inl h
    · exact Or.inr ⟨n, List.mem_cons_of_mem _ hn, h⟩

theorem mem_loadSeries_of_mem {R : Type} [Zero R] [One R] (env : FileSystem R)
    (patientPath : String) (m : SeriesMap R) (name : String) (kv : String × DicomSeries R)
    (hval : kv.2 = stdSort DicomFrame.lt (readSeries env kv.1)) (hmem : kv ∈ m) :
    kv ∈ loadSeries env patientPath m name := by
  rw [loadSeries_eq]
  split
  · by_cases hk : kv.1 = env.join patientPath name
    · have : kv = (env.join patientPath name,
          stdSort DicomFrame.lt (readSeries env (env.join patientPath name))) := by
        rw [← hk, ← hval]
      rw [this]
      exact mem_mapAssign_self _ _ _
    · exact mem_mapAssign_of_mem _ _ _ kv hmem hk
  · exact hmem

theorem mem_foldl_of_mem {R : Type} [Zero R] [One R] (env : FileSystem R)
    (patientPath : String) (names : List String) (m : SeriesMap R)
    (kv : String × DicomSeries R)
    (hval : kv.2 = stdSort DicomFrame.lt (readSeries env kv.1)) (hmem : kv ∈ m) :
    kv ∈ names.foldl (loadSeries env patientPath) m := by
  induction names generalizing m with
  | nil => exact hmem
  | cons name rest ih =>
    rw [List.foldl_cons]
    exact ih _ (mem_loadSeries_of_mem env patientPath m name kv hval hmem)

theorem foldl_loadSeries_complete {R : Type} [Zero R] [One R] (env : FileSystem R)
    (patientPath : String) (names : List String) (m : SeriesMap R) (name : String)
    (hname : name ∈ names) (hdir : env.isDirectory (env.join patientPath name) = true)
    (hne : readSeries env (env.join patientPath name) ≠ []) :
    (env.join patientPath name,
        stdSort DicomFrame.lt (readSeries env (env.join patientPath name)))
      ∈ names.foldl (loadSeries env patientPath) m := by
  induction names generalizing m with
  | nil => cases hname
  | cons n rest ih =>
    rw [List.foldl_cons]
    rcases List.mem_cons.mp hname with h | h
    · apply mem_foldl_of_mem env patientPath rest _ _ rfl
      rw [← h, loadSeries_eq, if_pos ⟨hdir, (isEmpty_false_iff _).mpr hne⟩]
      exact mem_mapAssign_self _ _ _
    · exact ih _ h

/-- The series index after a load, entry by entry: the stored pairs are the
sorted non-empty series read from the requested names that are directories. -/
theorem mem_loadSelectedSeries {R : Type} [Zero R] [One R] (env : FileSystem R)
    (m : SeriesMap R) (patientPath : String) (names : List String)
    (kv : String × DicomSeries R) :
    kv ∈ (loadSelectedSeries env m patientPath names).1 ↔
      ∃ name ∈ names, kv.1 = env.join patientPath name
        ∧ env.isDirectory kv.1 = true ∧ readSeries env kv.1 ≠ []
        ∧ kv.2 = stdSort DicomFrame.lt (readSeries env kv.1) := by
  unfold loadSelectedSeries clear
  constructor
  · intro h
    rcases mem_foldl_loadSeries env patientPath names [] kv h with h2 | h2
    · cases h2
    · exact h2
  · rintro ⟨name, hname, hk, hdir, hne, hval⟩
    have := foldl_loadSeries_complete env patientPath names [] name hname
      (by rw [← hk]; exact hdir) (by rw [← hk]; exact hne)
    rw [← hk, ← hval] at this
    exact this

theorem mem_stored_frame {R : Type} [Zero R] [One R] (env : FileSystem R)
    (m : SeriesMap R) (patientPath : String) (names : List String)
    (kv : String × DicomSeries R) (f : DicomFrame R)
    (hkv : kv ∈ (loadSelectedSeries env m patientPath names).1) (hf : f ∈ kv.2) :
    ∃ e ∈ env.directoryIterator kv.1,
      e.isRegularFile = true ∧ env.extension e.path = ".dcm"
        ∧ ∃ ds, env.loadFile e.path = some ds ∧ allTagsPresent ds = true
          ∧ f = attachContour env e.path (extractTags e.path ds).1 := by
  obtain ⟨name, _, _, _, _, hval⟩ := (mem_loadSelectedSeries env m patientPath names kv).mp hkv
  rw [hval] at hf
  exact (mem_readSeries env kv.1 f).mp ((stdSort_perm _ _).mem_iff.mp hf)

theorem stored_frame_of_entry {R : Type} [Zero R] [One R] (env : FileSystem R)
    (m : SeriesMap R) (patientPath : String) (names : List String) (name : String)
    (e : DirectoryEntry) (ds : DcmDataset R)
    (hname : name ∈ names) (hdir : env.isDirectory (env.join patientPath name) = true)
    (he : e ∈ env.directoryIterator (env.join patientPath name))
    (hreg : e.isRegularFile = true) (hext : env.extension e.path = ".dcm")
    (hload : env.loadFile e.path = some ds) (hall : allTagsPresent ds = true) :
    ∃ series, (env.join patientPath name, series)
        ∈ (loadSelectedSeries env m patientPath names).1
      ∧ attachContour env e.path (extractTags e.path ds).1 ∈ series := by
  have hin : attachContour env e.path (extractTags e.path ds).1
      ∈ readSeries env (env.join patientPath name) :=
    (mem_readSeries env _ _).mpr ⟨e, he, hreg, hext, ds, hload, hall, rfl⟩
  have hne : readSeries env (env.join patientPath name) ≠ [] := by
    intro h
    rw [h] at hin
    cases hin
  refine ⟨stdSort DicomFrame.lt (readSeries env (env.join patientPath name)), ?_, ?_⟩
  · exact (mem_loadSelectedSeries env m patientPath names _).mpr
      ⟨name, hname, rfl, hdir, hne, rfl⟩
  · exact (stdSort_perm _ _).mem_iff.mpr hin

/-- C3: after a load from any prior state, for any environment and any requested
names, every stored series is in ascending order of instance number on adjacent
frames; the same holds after `clear`, every call keeps the invariant (the two
queries leave the index as it is), and so it holds after any sequence of calls
on a new manager. -/
theorem loadSelectedSeries_ordered {R : Type} [Zero R] [One R] (env : FileSystem R)
    (m_seriesMap : SeriesMap R) (patientPath : String) (seriesNames : List String) :
    SeriesOrdered (loadSelectedSeries env m_seriesMap patientPath seriesNames).1
      ∧ SeriesOrdered (clear m_seriesMap)
      ∧ (∀ call : Call R, SeriesOrdered m_seriesMap → SeriesOrdered (step m_seriesMap call))
      ∧ (∀ calls : List (Call R), SeriesOrdered (calls.foldl step ([] : SeriesMap R))) := by
  have hload : ∀ (env : FileSystem R) (m : SeriesMap R) (p : String) (names : List String),
      SeriesOrdered (loadSelectedSeries env m p names).1 := by
    intro env m p names kv hkv
    obtain ⟨_, _, _, _, _, hval⟩ := (mem_loadSelectedSeries env m p names kv).mp hkv
    rw [hval]
    exact List.Pairwise.chain'
      (stdSort_sorted (fun f : DicomFrame R => f.instanceNumber) (readSeries env kv.1))
  have hclear : ∀ m : SeriesMap R, SeriesOrdered (clear m) := by
    intro m kv hkv
    cases hkv
  have hstep : ∀ (m : SeriesMap R) (call : Call R), SeriesOrdered m →
      SeriesOrdered (step m call) := by
    intro m call hm
    cases call with
    | clear => exact hclear m
    | loadSelectedSeries env p names => exact hload env m p names
    | getFramesForTimepoint t => exact hm
    | getNumberOfFrames => exact hm
  refine ⟨hload env m_seriesMap patientPath seriesNames, hclear m_seriesMap,
    hstep m_seriesMap, ?_⟩
  intro calls
  have hgen : ∀ (cs : List (Call R)) (m : SeriesMap R), SeriesOrdered m →
      SeriesOrdered (cs.foldl step m) := by
    intro cs
    induction cs with
    | nil => intro m hm; exact hm
    | cons c rest ih =>
      intro m hm
      rw [List.foldl_cons]
      exact ih _ (hstep m c hm)
  exact hgen calls [] (fun kv hkv => by cases hkv)

/-- Witness for C3: the end-to-end example, loaded over a prior state whose only
series is out of order, is stored in the order of instance numbers 0, 1, 2. -/
theorem loadSelectedSeries_ordered_witness :
    (loadSelectedSeries Example.sax Example.staleIndex "patient" ["SAX"]).1.map
        (fun pair => (pair.1, pair.2.map (fun f => f.instanceNumber)))
        = [("patient/SAX", [0, 1, 2])]
      ∧ SeriesOrdered (loadSelectedSeries Example.sax Example.staleIndex "patient" ["SAX"]).1 :=
  ⟨by decide, (loadSelectedSeries_ordered Example.sax Example.staleIndex "patient" ["SAX"]).1⟩

/-- C4: for every environment, prior state and requested names, a file for which
the decoder reports at least one of the six tags as absent has no frame in any
stored series, and every regular `.dcm` file of a requested directory that
decodes with all six tags present has a frame in the series of that directory. -/
theorem loadSelectedSeries_all_or_nothing {R : Type} [Zero R] [One R] (env : FileSystem R)
    (m_seriesMap : SeriesMap R) (patientPath : String) (seriesNames : List String) :
    (∀ (path : String) (dataset : DcmDataset R), env.loadFile path = some dataset →
        (dataset.imagePositionPatient = none ∨ dataset.imageOrientationPatient = none
          ∨ dataset.pixelSpacing = none ∨ dataset.instanceNumber = none
          ∨ dataset.rows = none ∨ dataset.columns = none) →
        ∀ pair ∈ (loadSelectedSeries env m_seriesMap patientPath seriesNames).1,
          ∀ f ∈ pair.2, f.filePath ≠ path)
      ∧ (∀ name ∈ seriesNames, env.isDirectory (env.join patientPath name) = true →
          ∀ e ∈ env.directoryIterator (env.join patientPath name),
            e.isRegularFile = true → env.extension e.path = ".dcm" →
            ∀ dataset, env.loadFile e.path = some dataset → allTagsPresent dataset = true →
              ∃ series, (env.join patientPath name, series)
                  ∈ (loadSelectedSeries env m_seriesMap patientPath seriesNames).1
                ∧ ∃ f ∈ series, f.filePath = e.path) := by
  refine ⟨?_, ?_⟩
  · intro path dataset hload habsent pair hpair f hf hpath
    obtain ⟨e, _, _, _, ds, hds, hall, hfe⟩ :=
      mem_stored_frame env m_seriesMap patientPath seriesNames pair f hpair hf
    have hfp : f.filePath = e.path := by
      rw [hfe, (attachContour_fields env e.path _).1, extractTags_filePath]
    rw [← hfp, hpath, hload] at hds
    cases hds
    unfold allTagsPresent at hall
    rcases habsent with h | h | h | h | h | h <;> rw [h] at hall <;> simp at hall
  · intro name hname hdir e he hreg hext dataset hload hall
    obtain ⟨series, hs, hf⟩ := stored_frame_of_entry env m_seriesMap patientPath seriesNames
      name e dataset hname hdir he hreg hext hload hall
    refine ⟨series, hs, _, hf, ?_⟩
    rw [(attachContour_fields env e.path _).1, extractTags_filePath]

/-- Witness for C4: of two files, the one without PixelSpacing has no frame and
the complete one has. -/
theorem loadSelectedSeries_all_or_nothing_witness :
    (∀ pair ∈ (loadSelectedSeries Example.missingSpacing [] "patient" ["SAX"]).1,
        ∀ f ∈ pair.2, f.filePath ≠ "patient/SAX/b.dcm")
      ∧ (loadSelectedSeries Example.missingSpacing [] "patient" ["SAX"]).1.map
          (fun pair => (pair.1, pair.2.map (fun f => f.filePath)))
          = [("patient/SAX", ["patient/SAX/a.dcm"])] :=
  ⟨(loadSelectedSeries_all_or_nothing Example.missingSpacing [] "patient" ["SAX"]).1
      "patient/SAX/b.dcm" { Example.dataset 1 2 with pixelSpacing := none } rfl
      (Or.inr (Or.inr (Or.inl rfl))),
    by decide⟩

theorem sscanfStore_apply {R : Type} {n : Nat} (value : List R) (target : Fin n → R)
    (i : Fin n) : sscanfStore value target i = (value[i.val]?).getD (target i) := by
  unfold sscanfStore
  cases value[i.val]? <;> rfl

theorem extractTags_geometry {R : Type} [Zero R] [One R] (filePath : String)
    (dataset : DcmDataset R) (pos ori sp : List R)
    (hpos : dataset.imagePositionPatient = some pos)
    (hori : dataset.imageOrientationPatient = some ori)
    (hsp : dataset.pixelSpacing = some sp) :
    (∀ i : Fin 3, (extractTags filePath dataset).1.imagePosition i
        = (pos[i.val]?).getD ((DicomFrame.init R).imagePosition i))
      ∧ (∀ i : Fin 6, (extractTags filePath dataset).1.imageOrientation i
        = (ori[i.val]?).getD ((DicomFrame.init R).imageOrientation i))
      ∧ (∀ i : Fin 2, (extractTags filePath dataset).1.pixelSpacing i
        = (sp[i.val]?).getD ((DicomFrame.init R).pixelSpacing i)) := by
  unfold extractTags scanTag
  simp only [hpos, hori, hsp]
  exact ⟨fun i => sscanfStore_apply _ _ i, fun i => sscanfStore_apply _ _ i,
    fun i => sscanfStore_apply _ _ i⟩

/-- C5 (as amended): a regular `.dcm` file of a requested directory for which all
six tags are present is stored whatever the number of components its position,
orientation and pixel-spacing values yield: component `i` of each of the three
fields of the stored frame is the `i`-th converted number when the value yields
one, and the `DicomFrame` default of that component otherwise. -/
theorem loadSelectedSeries_stores_defaults {R : Type} [Zero R] [One R] (env : FileSystem R)
    (m_seriesMap : SeriesMap R) (patientPath : String) (seriesNames : List String)
    (name : String) (e : DirectoryEntry) (dataset : DcmDataset R) (pos ori sp : List R)
    (hname : name ∈ seriesNames) (hdir : env.isDirectory (env.join patientPath name) = true)
    (he : e ∈ env.directoryIterator (env.join patientPath name))
    (hreg : e.isRegularFile = true) (hext : env.extension e.path = ".dcm")
    (hload : env.loadFile e.path = some dataset)
    (hpos : dataset.imagePositionPatient = some pos)
    (hori : dataset.imageOrientationPatient = some ori)
    (hsp : dataset.pixelSpacing = some sp)
    (hinst : dataset.instanceNumber.isSome = true) (hrows : dataset.rows.isSome = true)
    (hcols : dataset.columns.isSome = true) :
    ∃ series, (env.join patientPath name, series)
        ∈ (loadSelectedSeries env m_seriesMap patientPath seriesNames).1
      ∧ ∃ f ∈ series, f.filePath = e.path
        ∧ (∀ i : Fin 3, f.imagePosition i
            = (pos[i.val]?).getD ((DicomFrame.init R).imagePosition i))
        ∧ (∀ i : Fin 6, f.imageOrientation i
            = (ori[i.val]?).getD ((DicomFrame.init R).imageOrientation i))
        ∧ (∀ i : Fin 2, f.pixelSpacing i
            = (sp[i.val]?).getD ((DicomFrame.init R).pixelSpacing i)) := by
  have hall : allTagsPresent dataset = true := by
    unfold allTagsPresent
    rw [hpos, hori, hsp, hinst, hrows, hcols]
    rfl
  obtain ⟨series, hs, hf⟩ := stored_frame_of_entry env m_seriesMap patientPath seriesNames
    name e dataset hname hdir he hreg hext hload hall
  have hc := attachContour_fields env e.path (extractTags e.path dataset).1
  have hg := extractTags_geometry e.path dataset pos ori sp hpos hori hsp
  refine ⟨series, hs, _, hf, ?_, ?_, ?_, ?_⟩
  · rw [hc.1, extractTags_filePath]
  · rw [hc.2.2.1]; exact hg.1
  · rw [hc.2.2.2.1]; exact hg.2.1
  · rw [hc.2.2.2.2.1]; exact hg.2.2

/-- Witness for C5: the file whose position value holds only 7 and 8. -/
theorem loadSelectedSeries_stores_defaults_witness :
    ∃ series, ("patient/SAX", series)
        ∈ (loadSelectedSeries Example.shortPosition [] "patient" ["SAX"]).1
      ∧ ∃ f ∈ series, f.filePath = "patient/SAX/a.dcm"
        ∧ (∀ i : Fin 3, f.imagePosition i
            = (([7, 8] : List Int)[i.val]?).getD ((DicomFrame.init Int).imagePosition i))
        ∧ (∀ i : Fin 6, f.imageOrientation i
            = (([1, 0, 0, 0, 1, 0] : List Int)[i.val]?).getD
                ((DicomFrame.init Int).imageOrientation i))
        ∧ (∀ i : Fin 2, f.pixelSpacing i
            = (([1, 1] : List Int)[i.val]?).getD ((DicomFrame.init Int).pixelSpacing i)) :=
  loadSelectedSeries_stores_defaults Example.shortPosition [] "patient" ["SAX"] "SAX"
    ⟨"patient/SAX/a.dcm", true, false⟩
    { Example.dataset 0 1 with imagePositionPatient := some [7, 8] }
    [7, 8] [1, 0, 0, 0, 1, 0] [1, 1]
    (by decide) (by decide) (by decide) rfl (by decide) rfl rfl rfl rfl rfl rfl rfl

/-- Counterexample to C5 as stated: the position tag of `patient/SAX/a.dcm` is
present and yields two components instead of three, yet the load stores the
frame, at position (7, 8, 0): the third component is the default 0. -/
theorem short_position_is_stored :
    Example.shortPosition.loadFile "patient/SAX/a.dcm"
        = some { Example.dataset 0 1 with imagePositionPatient := some [7, 8] }
      ∧ (loadSelectedSeries Example.shortPosition [] "patient" ["SAX"]).1.map
          (fun pair => (pair.1, pair.2.map (fun f =>
            (f.filePath, f.imagePosition 0, f.imagePosition 1, f.imagePosition 2))))
          = [("patient/SAX", [("patient/SAX/a.dcm", 7, 8, 0)])]
      ∧ ¬ (∀ pair ∈ (loadSelectedSeries Example.shortPosition [] "patient" ["SAX"]).1,
            ∀ f ∈ pair.2, f.filePath ≠ "patient/SAX/a.dcm") :=
  ⟨rfl, by decide, by decide⟩

/-- C6 (as amended): every frame of a loaded series has a row count and a column
count that are not negative and are the values of the Rows and Columns tags of
its file; and a regular `.dcm` file of a requested directory with all six tags
present has a frame with its Rows and Columns values, zero included. -/
theorem loadSelectedSeries_rows_cols {R : Type} [Zero R] [One R] (env : FileSystem R)
    (m_seriesMap : SeriesMap R) (patientPath : String) (seriesNames : List String) :
    (∀ pair ∈ (loadSelectedSeries env m_seriesMap patientPath seriesNames).1, ∀ f ∈ pair.2,
        0 ≤ f.rows ∧ 0 ≤ f.cols
          ∧ ∃ dataset, env.loadFile f.filePath = some dataset
            ∧ dataset.rows = some f.rows.toNat ∧ dataset.columns = some f.cols.toNat)
      ∧ (∀ name ∈ seriesNames, env.isDirectory (env.join patientPath name) = true →
          ∀ e ∈ env.directoryIterator (env.join patientPath name),
            e.isRegularFile = true → env.extension e.path = ".dcm" →
            ∀ (dataset : DcmDataset R) (r c : Nat), env.loadFile e.path = some dataset →
              allTagsPresent dataset = true → dataset.rows = some r →
              dataset.columns = some c →
              ∃ series, (env.join patientPath name, series)
                  ∈ (loadSelectedSeries env m_seriesMap patientPath seriesNames).1
                ∧ ∃ f ∈ series, f.filePath = e.path ∧ f.rows = (r : Int)
                  ∧ f.cols = (c : Int)) := by
  refine ⟨?_, ?_⟩
  · intro pair hpair f hf
    obtain ⟨e, _, _, _, ds, hds, hall, hfe⟩ :=
      mem_stored_frame env m_seriesMap patientPath seriesNames pair f hpair hf
    have hc := attachContour_fields env e.path (extractTags e.path ds).1
    have hfp : f.filePath = e.path := by rw [hfe, hc.1, extractTags_filePath]
    have hr : f.rows = ((ds.rows.getD 0 : Nat) : Int) := by rw [hfe, hc.2.2.2.2.2.1]; rfl
    have hcl : f.cols = ((ds.columns.getD 0 : Nat) : Int) := by rw [hfe, hc.2.2.2.2.2.2]; rfl
    unfold allTagsPresent at hall
    simp only [Bool.and_eq_true] at hall
    obtain ⟨r, hrs⟩ := Option.isSome_iff_exists.mp hall.1.2
    obtain ⟨c, hcs⟩ := Option.isSome_iff_exists.mp hall.2
    rw [hrs] at hr
    rw [hcs] at hcl
    simp only [Option.getD_some] at hr hcl
    refine ⟨by rw [hr]; exact Int.ofNat_nonneg r, by rw [hcl]; exact Int.ofNat_nonneg c,
      ds, by rw [hfp]; exact hds, ?_, ?_⟩
    · rw [hrs, hr, Int.toNat_ofNat]
    · rw [hcs, hcl, Int.toNat_ofNat]
  · intro name hname hdir e he hreg hext dataset r c hload hall hr hcl
    obtain ⟨series, hs, hf⟩ := stored_frame_of_entry env m_seriesMap patientPath seriesNames
      name e dataset hname hdir he hreg hext hload hall
    have hc := attachContour_fields env e.path (extractTags e.path dataset).1
    refine ⟨series, hs, _, hf, ?_, ?_, ?_⟩
    · rw [hc.1, extractTags_filePath]
    · rw [hc.2.2.2.2.2.1]
      show ((dataset.rows.getD 0 : Nat) : Int) = (r : Int)
      rw [hr, Option.getD_some]
    · rw [hc.2.2.2.2.2.2]
      show ((dataset.columns.getD 0 : Nat) : Int) = (c : Int)
      rw [hcl, Option.getD_some]

/-- Witness for C6: the file with Rows = 0 has a frame with 0 rows and 256
columns. -/
theorem loadSelectedSeries_rows_cols_witness :
    ∃ series, ("patient/SAX", series)
        ∈ (loadSelectedSeries Example.zeroRows [] "patient" ["SAX"]).1
      ∧ ∃ f ∈ series, f.filePath = "patient/SAX/a.dcm" ∧ f.rows = ((0 : Nat) : Int)
        ∧ f.cols = ((256 : Nat) : Int) :=
  (loadSelectedSeries_rows_cols Example.zeroRows [] "patient" ["SAX"]).2 "SAX" (by decide)
    (by decide) ⟨"patient/SAX/a.dcm", true, false⟩ (by decide) rfl (by decide)
    { Example.dataset 0 1 with rows := some 0 } 0 256 rfl rfl rfl rfl

/-- Counterexample to C6 as stated: the Rows tag of `patient/SAX/a.dcm` is
present with value 0 and the load stores a frame for the file, with 0 rows. -/
theorem zero_rows_is_stored :
    (loadSelectedSeries Example.zeroRows [] "patient" ["SAX"]).1.map
        (fun pair => (pair.1, pair.2.map (fun f => (f.filePath, f.rows, f.cols))))
        = [("patient/SAX", [("patient/SAX/a.dcm", 0, 256)])]
      ∧ ¬ (∀ pair ∈ (loadSelectedSeries Example.zeroRows [] "patient" ["SAX"]).1,
            ∀ f ∈ pair.2, 0 < f.rows ∧ 0 < f.cols) :=
  ⟨by decide, by decide⟩

/-! ### Loading: the returned flag and the replacement of the index -/

theorem stored_series_ne_nil {R : Type} [Zero R] [One R] (env : FileSystem R)
    (m : SeriesMap R) (patientPath : String) (names : List String)
    (kv : String × DicomSeries R)
    (hkv : kv ∈ (loadSelectedSeries env m patientPath names).1) : kv.2 ≠ [] := by
  obtain ⟨_, _, _, _, hne, hval⟩ := (mem_loadSelectedSeries env m patientPath names kv).mp hkv
  intro h
  rw [hval] at h
  have hp := (stdSort_perm DicomFrame.lt (readSeries env kv.1)).length_eq
  rw [h] at hp
  exact hne (List.eq_nil_of_length_eq_zero hp.symm)

theorem loadSelectedSeries_ne_nil_iff {R : Type} [Zero R] [One R] (env : FileSystem R)
    (m : SeriesMap R) (patientPath : String) (names : List String) :
    (loadSelectedSeries env m patientPath names).1 ≠ [] ↔
      ∃ name ∈ names, env.isDirectory (env.join patientPath name) = true
        ∧ ∃ e ∈ env.directoryIterator (env.join patientPath name), decodesToFrame env e := by
  constructor
  · intro h
    obtain ⟨kv, hkv⟩ := List.exists_mem_of_ne_nil _ h
    obtain ⟨name, hname, hk, hdir, hne, _⟩ :=
      (mem_loadSelectedSeries env m patientPath names kv).mp hkv
    rw [hk] at hdir hne
    exact ⟨name, hname, hdir, (readSeries_ne_nil_iff env _).mp hne⟩
  · rintro ⟨name, hname, hdir, hex⟩ hnil
    have hne := (readSeries_ne_nil_iff env _).mpr hex
    have hmem := (mem_loadSelectedSeries env m patientPath names
      (env.join patientPath name,
        stdSort DicomFrame.lt (readSeries env (env.join patientPath name)))).mpr
      ⟨name, hname, rfl, hdir, hne, rfl⟩
    rw [hnil] at hmem
    cases hmem

theorem loadSelectedSeries_flag {R : Type} [Zero R] [One R] (env : FileSystem R)
    (m : SeriesMap R) (patientPath : String) (names : List String) :
    (loadSelectedSeries env m patientPath names).2 = true
      ↔ (loadSelectedSeries env m patientPath names).1 ≠ [] := by
  have h : (loadSelectedSeries env m patientPath names).2
      = !(loadSelectedSeries env m patientPath names).1.isEmpty := rfl
  rw [h]
  cases (loadSelectedSeries env m patientPath names).1 <;> simp

/-- C7: `loadSelectedSeries` returns true exactly when the series index is not
empty after the call, exactly when the index holds at least one non-empty
series, and exactly when some requested name resolves to a directory with an
entry that is a regular `.dcm` file decoding with all six tags present; it
returns false exactly when the stored series hold zero frames in total. -/
theorem loadSelectedSeries_returns {R : Type} [Zero R] [One R] (env : FileSystem R)
    (m_seriesMap : SeriesMap R) (patientPath : String) (seriesNames : List String) :
    ((loadSelectedSeries env m_seriesMap patientPath seriesNames).2 = true
        ↔ (loadSelectedSeries env m_seriesMap patientPath seriesNames).1 ≠ [])
      ∧ ((loadSelectedSeries env m_seriesMap patientPath seriesNames).2 = true
        ↔ ∃ pair ∈ (loadSelectedSeries env m_seriesMap patientPath seriesNames).1,
            pair.2 ≠ [])
      ∧ ((loadSelectedSeries env m_seriesMap patientPath seriesNames).2 = true
        ↔ ∃ name ∈ seriesNames, env.isDirectory (env.join patientPath name) = true
            ∧ ∃ e ∈ env.directoryIterator (env.join patientPath name), decodesToFrame env e)
      ∧ ((loadSelectedSeries env m_seriesMap patientPath seriesNames).2 = false
        ↔ ((loadSelectedSeries env m_seriesMap patientPath seriesNames).1.map
              (fun pair => pair.2.length)).sum = 0) := by
  have hflag := loadSelectedSeries_flag env m_seriesMap patientPath seriesNames
  have hne := loadSelectedSeries_ne_nil_iff env m_seriesMap patientPath seriesNames
  have hstored := stored_series_ne_nil env m_seriesMap patientPath seriesNames
  refine ⟨hflag, ?_, hflag.trans hne, ?_⟩
  · rw [hflag]
    constructor
    · intro h
      obtain ⟨kv, hkv⟩ := List.exists_mem_of_ne_nil _ h
      exact ⟨kv, hkv, hstored kv hkv⟩
    · rintro ⟨kv, hkv, _⟩ hnil
      rw [hnil] at hkv
      cases hkv
  · rw [← Bool.not_eq_true, hflag, not_not]
    constructor
    · intro h
      rw [h]
      rfl
    · intro hsum
      cases hidx : (loadSelectedSeries env m_seriesMap patientPath seriesNames).1 with
      | nil => rfl
      | cons kv rest =>
        exfalso
        have hkv : kv ∈ (loadSelectedSeries env m_seriesMap patientPath seriesNames).1 := by
          rw [hidx]
          exact List.mem_cons_self _ _
        have hpos : 0 < kv.2.length := List.length_pos.mpr (hstored kv hkv)
        rw [hidx, List.map_cons, List.sum_cons] at hsum
        omega

/-- C8: the result of a load does not depend on the prior index state: two
prior states give the same index and the same flag, which are those of a load
into an empty index; every stored pair is a series read by this load from a
requested name; and a load that finds no file decoding to a frame leaves the
index empty. -/
theorem loadSelectedSeries_replaces {R : Type} [Zero R] [One R] (env : FileSystem R)
    (s1 s2 : SeriesMap R) (patientPath : String) (seriesNames : List String) :
    loadSelectedSeries env s1 patientPath seriesNames
        = loadSelectedSeries env s2 patientPath seriesNames
      ∧ loadSelectedSeries env s1 patientPath seriesNames
        = loadSelectedSeries env [] patientPath seriesNames
      ∧ (∀ pair ∈ (loadSelectedSeries env s1 patientPath seriesNames).1,
          ∃ name ∈ seriesNames, pair.1 = env.join patientPath name
            ∧ pair.2 = stdSort DicomFrame.lt (readSeries env pair.1))
      ∧ ((¬ ∃ name ∈ seriesNames, env.isDirectory (env.join patientPath name) = true
            ∧ ∃ e ∈ env.directoryIterator (env.join patientPath name), decodesToFrame env e)
          → (loadSelectedSeries env s1 patientPath seriesNames).1 = []) := by
  refine ⟨rfl, rfl, ?_, ?_⟩
  · intro pair hpair
    obtain ⟨name, hname, hk, _, _, hval⟩ :=
      (mem_loadSelectedSeries env s1 patientPath seriesNames pair).mp hpair
    exact ⟨name, hname, hk, hval⟩
  · intro hnone
    by_contra h
    exact hnone ((loadSelectedSeries_ne_nil_iff env s1 patientPath seriesNames).mp h)

/-- Witness for C8: over a prior state holding the series `old`, a load of the
example holds `patient/SAX` only, and a load of a name that is no directory
leaves the index empty. -/
theorem loadSelectedSeries_replaces_witness :
    (loadSelectedSeries Example.sax Example.staleIndex "patient" ["SAX"]).1.map
        (fun pair => pair.1) = ["patient/SAX"]
      ∧ loadSelectedSeries Example.sax Example.staleIndex "patient" ["SAX"]
        = loadSelectedSeries Example.sax [] "patient" ["SAX"]
      ∧ (loadSelectedSeries Example.sax Example.staleIndex "patient" ["LAX"]).1 = [] :=
  ⟨by decide,
    (loadSelectedSeries_replaces Example.sax Example.staleIndex [] "patient" ["SAX"]).1,
    (loadSelectedSeries_replaces Example.sax Example.staleIndex [] "patient" ["LAX"]).2.2.2
      (by
        rintro ⟨name, hname, hdir, _⟩
        rw [List.mem_singleton.mp hname] at hdir
        revert hdir
        decide)⟩

/-- Witness for C7: the load of the example returns true and, for a name that is
no directory, false. -/
theorem loadSelectedSeries_returns_witness :
    (loadSelectedSeries Example.sax [] "patient" ["SAX"]).2 = true
      ∧ (loadSelectedSeries Example.sax [] "patient" ["LAX"]).2 = false
      ∧ ((loadSelectedSeries Example.sax [] "patient" ["LAX"]).1.map
            (fun pair => pair.2.length)).sum = 0 :=
  ⟨by decide, by decide,
    (loadSelectedSeries_returns Example.sax [] "patient" ["LAX"]).2.2.2.mp (by decide)⟩

/-! ### Stored series are not empty -/

/-- C14: after a load from any prior state, every stored series is non-empty and
every key is the join of the patient path and a requested name; a requested name
whose directory has no entry decoding to a frame is not a key of the index; the
index after `clear` has no empty series, every call keeps this, and so it holds
after any sequence of calls on a new manager. -/
theorem loadSelectedSeries_nonempty_keys {R : Type} [Zero R] [One R] (env : FileSystem R)
    (m_seriesMap : SeriesMap R) (patientPath : String) (seriesNames : List String) :
    (∀ pair ∈ (loadSelectedSeries env m_seriesMap patientPath seriesNames).1,
        pair.2 ≠ [] ∧ ∃ name ∈ seriesNames, pair.1 = env.join patientPath name)
      ∧ (∀ name ∈ seriesNames,
          (¬ ∃ e ∈ env.directoryIterator (env.join patientPath name), decodesToFrame env e) →
          ∀ pair ∈ (loadSelectedSeries env m_seriesMap patientPath seriesNames).1,
            pair.1 ≠ env.join patientPath name)
      ∧ SeriesNonEmpty (clear m_seriesMap)
      ∧ (∀ call : Call R, SeriesNonEmpty m_seriesMap → SeriesNonEmpty (step m_seriesMap call))
      ∧ (∀ calls : List (Call R), SeriesNonEmpty (calls.foldl step ([] : SeriesMap R))) := by
  have hstep : ∀ (m : SeriesMap R) (call : Call R), SeriesNonEmpty m →
      SeriesNonEmpty (step m call) := by
    intro m call hm
    cases call with
    | clear => intro kv hkv; cases hkv
    | loadSelectedSeries env2 p names =>
      intro kv hkv
      exact stored_series_ne_nil env2 m p names kv hkv
    | getFramesForTimepoint t => exact hm
    | getNumberOfFrames => exact hm
  refine ⟨?_, ?_, ?_, hstep m_seriesMap, ?_⟩
  · intro pair hpair
    obtain ⟨name, hname, hk, _, _, _⟩ :=
      (mem_loadSelectedSeries env m_seriesMap patientPath seriesNames pair).mp hpair
    exact ⟨stored_series_ne_nil env m_seriesMap patientPath seriesNames pair hpair,
      name, hname, hk⟩
  · intro name _ hnone pair hpair hkey
    obtain ⟨_, _, _, _, hne, _⟩ :=
      (mem_loadSelectedSeries env m_seriesMap patientPath seriesNames pair).mp hpair
    rw [hkey] at hne
    exact hnone ((readSeries_ne_nil_iff env _).mp hne)
  · intro kv hkv
    cases hkv
  · intro calls
    have hgen : ∀ (cs : List (Call R)) (m : SeriesMap R), SeriesNonEmpty m →
        SeriesNonEmpty (cs.foldl step m) := by
      intro cs
      induction cs with
      | nil => intro m hm; exact hm
      | cons c rest ih =>
        intro m hm
        rw [List.foldl_cons]
        exact ih _ (hstep m c hm)
    exact hgen calls [] (fun kv hkv => by cases hkv)

/-- Witness for C14: the example stores its series of three frames under the key
`patient/SAX`, and a directory whose only file lacks a tag leaves no key. -/
theorem loadSelectedSeries_nonempty_keys_witness :
    (loadSelectedSeries Example.sax Example.staleIndex "patient" ["SAX", "LAX"]).1.map
        (fun pair => (pair.1, pair.2.length)) = [("patient/SAX", 3)]
      ∧ (∀ pair ∈ (loadSelectedSeries Example.sax Example.staleIndex "patient"
            ["SAX", "LAX"]).1,
          pair.2 ≠ [] ∧ ∃ name ∈ ["SAX", "LAX"], pair.1 = Example.sax.join "patient" name)
      ∧ ∀ pair ∈ (loadSelectedSeries Example.noValidFrame [] "patient" ["SAX"]).1,
          pair.1 ≠ Example.noValidFrame.join "patient" "SAX" :=
  ⟨by decide,
    (loadSelectedSeries_nonempty_keys Example.sax Example.staleIndex "patient"
      ["SAX", "LAX"]).1,
    (loadSelectedSeries_nonempty_keys Example.noValidFrame [] "patient" ["SAX"]).2.1 "SAX"
      (by decide)
      (by
        rintro ⟨e, he, hreg, hext, ds, hload, hall⟩
        have he2 : e = ⟨"patient/SAX/b.dcm", true, false⟩ := List.mem_singleton.mp he
        subst he2
        have hds : ds = { Example.dataset 1 2 with pixelSpacing := none } :=
          (Option.some.inj hload).symm
        subst hds
        exact absurd hall (by decide))⟩

/-! ### Discovery -/

theorem foldl_pushSeriesName {R : Type} (env : FileSystem R) (entries : List DirectoryEntry)
    (acc : List String) :
    entries.foldl (pushSeriesName env) acc
      = acc ++ (entries.filter (fun entry => entry.isDirectory)).map
          (fun entry => env.filename entry.path) := by
  induction entries generalizing acc with
  | nil => simp
  | cons e rest ih =>
    rw [List.foldl_cons, ih]
    unfold pushSeriesName
    by_cases h : e.isDirectory = true
    · simp [h]
    · simp [h]

theorem discoverSeries_of_directory {R : Type} (env : FileSystem R) (patientPath : String)
    (hex : env.pathExists patientPath = true) (hdir : env.isDirectory patientPath = true) :
    discoverSeries env patientPath
      = stdSort (fun a b : String => decide (a.data < b.data))
          (subdirectoryNames env patientPath) := by
  unfold discoverSeries subdirectoryNames
  simp only [hex, hdir, Bool.not_true, Bool.or_self, Bool.false_eq_true, if_false]
  rw [foldl_pushSeriesName, List.nil_append]
  rfl

theorem discoverSeries_of_invalid {R : Type} (env : FileSystem R) (patientPath : String)
    (h : env.pathExists patientPath = false ∨ env.isDirectory patientPath = false) :
    discoverSeries env patientPath = [] := by
  unfold discoverSeries
  rcases h with h | h
  · simp [h]
  · simp [h]

theorem discoverSeries_pairwise {R : Type} (env : FileSystem R) (patientPath : String) :
    (discoverSeries env patientPath).Pairwise (fun a b : String => a.data ≤ b.data) := by
  by_cases hex : env.pathExists patientPath = true
  · by_cases hdir : env.isDirectory patientPath = true
    · rw [discoverSeries_of_directory env patientPath hex hdir]
      exact stdSort_sorted (fun a : String => a.data) _
    · rw [discoverSeries_of_invalid env patientPath (Or.inr (by simpa using hdir))]
      exact List.Pairwise.nil
  · rw [discoverSeries_of_invalid env patientPath (Or.inl (by simpa using hex))]
    exact List.Pairwise.nil

/-- C15: `discoverSeries` returns the empty list for a path that does not exist
or is not a directory; for a directory it returns a permutation of the names of
the entries that are directories, one per entry and no name of a file; the
result is in ascending lexicographic order; and two listings of the directory
that are permutations of each other give the same result. -/
theorem discoverSeries_sorted_subdirectories {R : Type} (env : FileSystem R)
    (patientPath : String) :
    ((env.pathExists patientPath = false ∨ env.isDirectory patientPath = false) →
        discoverSeries env patientPath = [])
      ∧ (env.pathExists patientPath = true → env.isDirectory patientPath = true →
          (discoverSeries env patientPath).Perm (subdirectoryNames env patientPath))
      ∧ (discoverSeries env patientPath).Pairwise (fun a b : String => a.data ≤ b.data)
      ∧ (∀ env2 : FileSystem R, env2.pathExists patientPath = env.pathExists patientPath →
          env2.isDirectory patientPath = env.isDirectory patientPath →
          env2.filename = env.filename →
          (env2.directoryIterator patientPath).Perm (env.directoryIterator patientPath) →
          discoverSeries env2 patientPath = discoverSeries env patientPath) := by
  refine ⟨discoverSeries_of_invalid env patientPath, ?_, discoverSeries_pairwise env patientPath,
    ?_⟩
  · intro hex hdir
    rw [discoverSeries_of_directory env patientPath hex hdir]
    exact stdSort_perm _ _
  · intro env2 hex2 hdir2 hname hperm
    by_cases hex : env.pathExists patientPath = true
    · by_cases hdir : env.isDirectory patientPath = true
      · have hp1 : (discoverSeries env patientPath).Perm (subdirectoryNames env patientPath) := by
          rw [discoverSeries_of_directory env patientPath hex hdir]
          exact stdSort_perm _ _
        have hp2 : (discoverSeries env2 patientPath).Perm
            (subdirectoryNames env2 patientPath) := by
          rw [discoverSeries_of_directory env2 patientPath (hex2.trans hex) (hdir2.trans hdir)]
          exact stdSort_perm _ _
        have hp3 : (subdirectoryNames env2 patientPath).Perm
            (subdirectoryNames env patientPath) := by
          unfold subdirectoryNames
          rw [hname]
          exact (hperm.filter _).map _
        haveI : IsAntisymm String (fun a b : String => a.data ≤ b.data) :=
          ⟨fun a b hab hba => String.ext (le_antisymm hab hba)⟩
        exact List.eq_of_perm_of_sorted ((hp2.trans hp3).trans hp1.symm)
          (discoverSeries_pairwise env2 patientPath) (discoverSeries_pairwise env patientPath)
      · rw [discoverSeries_of_invalid env patientPath (Or.inr (by simpa using hdir)),
          discoverSeries_of_invalid env2 patientPath
            (Or.inr (by rw [hdir2]; simpa using hdir))]
    · rw [discoverSeries_of_invalid env patientPath (Or.inl (by simpa using hex)),
        discoverSeries_of_invalid env2 patientPath
          (Or.inl (by rw [hex2]; simpa using hex))]

/-- Witness for C15: a patient directory listing `B`, a file, `A`, a file and `C`
yields `A`, `B`, `C`, and a path that does not exist yields the empty list. -/
theorem discoverSeries_sorted_subdirectories_witness :
    discoverSeries Example.patientListing "patient" = ["A", "B", "C"]
      ∧ (discoverSeries Example.patientListing "patient").Perm
          (subdirectoryNames Example.patientListing "patient")
      ∧ discoverSeries Example.patientListing "nowhere" = [] :=
  ⟨by decide,
    (discoverSeries_sorted_subdirectories Example.patientListing "patient").2.1
      (by decide) (by decide),
    (discoverSeries_sorted_subdirectories Example.patientListing "nowhere").1
      (Or.inl (by decide))⟩

end DicomManager

/-! ### The affine transform -/

namespace VtkManager

/-- C10: for every frame the matrix of `createTransformMatrix` has first column
(row direction, 0), second column (column direction, 0), third column (row
direction x column direction, 0) and fourth column (position, 1); the third
column is the cross product of the first two, and the last row is 0, 0, 0, 1. -/
theorem createTransformMatrix_columns {R : Type} [Zero R] [One R] [Mul R] [Sub R]
    (frame : DicomFrame R) :
    (∀ i : Fin 3, createTransformMatrix frame i.castSucc 0
        = (![frame.imageOrientation 0, frame.imageOrientation 1, frame.imageOrientation 2] :
            Fin 3 → R) i)
      ∧ (∀ i : Fin 3, createTransformMatrix frame i.castSucc 1
        = (![frame.imageOrientation 3, frame.imageOrientation 4, frame.imageOrientation 5] :
            Fin 3 → R) i)
      ∧ (∀ i : Fin 3, createTransformMatrix frame i.castSucc 2
        = cross ![frame.imageOrientation 0, frame.imageOrientation 1, frame.imageOrientation 2]
            ![frame.imageOrientation 3, frame.imageOrientation 4, frame.imageOrientation 5] i)
      ∧ (∀ i : Fin 3, createTransformMatrix frame i.castSucc 3 = frame.imagePosition i)
      ∧ (∀ i : Fin 3, createTransformMatrix frame i.castSucc 2
        = cross (fun k => createTransformMatrix frame k.castSucc 0)
            (fun k => createTransformMatrix frame k.castSucc 1) i)
      ∧ createTransformMatrix frame 3 0 = 0
      ∧ createTransformMatrix frame 3 1 = 0
      ∧ createTransformMatrix frame 3 2 = 0
      ∧ createTransformMatrix frame 3 3 = 1 := by
  refine ⟨?_, ?_, ?_, ?_, ?_, rfl, rfl, rfl, rfl⟩ <;> intro i <;> fin_cases i <;> rfl

/-! ### Contours -/

theorem contourStep_eq {R : Type} [Zero R] [One R] [Add R] [Mul R] [Sub R]
    (frame : DicomFrame R) (x_coords y_coords : Nat → R)
    (state : List (Fin 3 → R) × CellArray) (i : Nat) :
    contourStep frame (createTransformMatrix frame) x_coords y_coords state i
      = (state.1 ++ [contourPoint frame (x_coords i) (y_coords i)],
          insertCellPoint state.2 i) := rfl

theorem insertCellPoint_single (npts : Nat) (ids : List Nat) (id : Nat) :
    insertCellPoint [(npts, ids)] id = [(npts, ids ++ [id])] := rfl

theorem foldl_contourStep {R : Type} [Zero R] [One R] [Add R] [Mul R] [Sub R]
    (frame : DicomFrame R) (x_coords y_coords : Nat → R) (is : List Nat)
    (points : List (Fin 3 → R)) (npts : Nat) (ids : List Nat) :
    is.foldl (contourStep frame (createTransformMatrix frame) x_coords y_coords)
        (points, [(npts, ids)])
      = (points ++ is.map (fun i => contourPoint frame (x_coords i) (y_coords i)),
          [(npts, ids ++ is)]) := by
  induction is generalizing points ids with
  | nil => simp
  | cons i rest ih =>
    rw [List.foldl_cons, contourStep_eq, insertCellPoint_single, ih]
    simp

theorem createContourActor_accepted {R : Type} [Zero R] [One R] [Add R] [Mul R] [Sub R]
    (npy_load : String → NpyArray R) (frame : DicomFrame R) (N : Nat)
    (hpath : frame.contourFilePath ≠ "")
    (hshape : (npy_load frame.contourFilePath).shape = [2, N]) (hN : 2 ≤ N) :
    createContourActor npy_load frame
      = some { points := (List.range N).map (fun i => contourPoint frame
                  ((npy_load frame.contourFilePath).data i)
                  ((npy_load frame.contourFilePath).data (N + i)))
               lines := [(N + 1, List.range N ++ [0])] } := by
  unfold createContourActor
  rw [if_neg hpath]
  simp only [hshape]
  have hlt : ¬ N < 2 := by omega
  simp only [bne_self_eq_false, Bool.false_eq_true, if_false, hlt]
  unfold insertNextCell
  rw [List.nil_append, foldl_contourStep]
  simp [insertCellPoint]

theorem createContourActor_eq_none_iff {R : Type} [Zero R] [One R] [Add R] [Mul R] [Sub R]
    (npy_load : String → NpyArray R) (frame : DicomFrame R) :
    createContourActor npy_load frame = none ↔
      frame.contourFilePath = ""
        ∨ ¬ ∃ N, (npy_load frame.contourFilePath).shape = [2, N] ∧ 2 ≤ N := by
  by_cases hpath : frame.contourFilePath = ""
  · simp [createContourActor, hpath]
  · by_cases hex : ∃ N, (npy_load frame.contourFilePath).shape = [2, N] ∧ 2 ≤ N
    · obtain ⟨N, hshape, hN⟩ := hex
      rw [createContourActor_accepted npy_load frame N hpath hshape hN]
      simp only [hpath, false_or, reduceCtorEq, false_iff, not_not]
      exact ⟨N, hshape, hN⟩
    · simp only [hpath, hex, not_false_eq_true, or_true, iff_true]
      unfold createContourActor
      rw [if_neg hpath]
      dsimp only
      generalize (npy_load frame.contourFilePath).shape = shape at hex
      rcases shape with _ | ⟨dim0, _ | ⟨dim1, _ | ⟨dim2, rest⟩⟩⟩
      · rfl
      · rfl
      · by_cases h0 : dim0 = 2
        · subst h0
          have hlt : dim1 < 2 := by
            by_contra hge
            exact hex ⟨dim1, rfl, by omega⟩
          simp [hlt]
        · simp [h0]
      · rfl

theorem contourPoint_components {R : Type} [CommRing R] (frame : DicomFrame R) (x y : R) :
    contourPoint frame x y 0
        = frame.imagePosition 0 + (x * frame.pixelSpacing 1) * frame.imageOrientation 0
          + (y * frame.pixelSpacing 0) * frame.imageOrientation 3
      ∧ contourPoint frame x y 1
        = frame.imagePosition 1 + (x * frame.pixelSpacing 1) * frame.imageOrientation 1
          + (y * frame.pixelSpacing 0) * frame.imageOrientation 4
      ∧ contourPoint frame x y 2
        = frame.imagePosition 2 + (x * frame.pixelSpacing 1) * frame.imageOrientation 2
          + (y * frame.pixelSpacing 0) * frame.imageOrientation 5 := by
  refine ⟨?_, ?_, ?_⟩
  · show (x * frame.pixelSpacing 1) * frame.imageOrientation 0
        + (y * frame.pixelSpacing 0) * frame.imageOrientation 3
        + 0 * (frame.imageOrientation 1 * frame.imageOrientation 5
            - frame.imageOrientation 2 * frame.imageOrientation 4)
        + 1 * frame.imagePosition 0 = _
    ring
  · show (x * frame.pixelSpacing 1) * frame.imageOrientation 1
        + (y * frame.pixelSpacing 0) * frame.imageOrientation 4
        + 0 * (frame.imageOrientation 2 * frame.imageOrientation 3
            - frame.imageOrientation 0 * frame.imageOrientation 5)
        + 1 * frame.imagePosition 1 = _
    ring
  · show (x * frame.pixelSpacing 1) * frame.imageOrientation 2
        + (y * frame.pixelSpacing 0) * frame.imageOrientation 5
        + 0 * (frame.imageOrientation 0 * frame.imageOrientation 4
            - frame.imageOrientation 1 * frame.imageOrientation 3)
        + 1 * frame.imagePosition 2 = _
    ring

theorem contourPoint_plane {R : Type} [CommRing R] (frame : DicomFrame R) (x y : R) :
    (contourPoint frame x y 0 - frame.imagePosition 0)
        * cross ![frame.imageOrientation 0, frame.imageOrientation 1, frame.imageOrientation 2]
            ![frame.imageOrientation 3, frame.imageOrientation 4, frame.imageOrientation 5] 0
      + (contourPoint frame x y 1 - frame.imagePosition 1)
        * cross ![frame.imageOrientation 0, frame.imageOrientation 1, frame.imageOrientation 2]
            ![frame.imageOrientation 3, frame.imageOrientation 4, frame.imageOrientation 5] 1
      + (contourPoint frame x y 2 - frame.imagePosition 2)
        * cross ![frame.imageOrientation 0, frame.imageOrientation 1, frame.imageOrientation 2]
            ![frame.imageOrientation 3, frame.imageOrientation 4, frame.imageOrientation 5] 2
      = 0 := by
  obtain ⟨h0, h1, h2⟩ := contourPoint_components frame x y
  rw [h0, h1, h2]
  show (_ - _) * (frame.imageOrientation 1 * frame.imageOrientation 5
          - frame.imageOrientation 2 * frame.imageOrientation 4)
      + (_ - _) * (frame.imageOrientation 2 * frame.imageOrientation 3
          - frame.imageOrientation 0 * frame.imageOrientation 5)
      + (_ - _) * (frame.imageOrientation 0 * frame.imageOrientation 4
          - frame.imageOrientation 1 * frame.imageOrientation 3) = 0
  ring

theorem mem_points_of_createContourActor {R : Type} [Zero R] [One R] [Add R] [Mul R] [Sub R]
    (npy_load : String → NpyArray R) (frame : DicomFrame R) (actor : ContourActor R)
    (hactor : createContourActor npy_load frame = some actor) (p : Fin 3 → R)
    (hp : p ∈ actor.points) : ∃ x y, p = contourPoint frame x y := by
  have hnot : ¬ createContourActor npy_load frame = none := by
    rw [hactor]
    exact Option.some_ne_none actor
  rw [createContourActor_eq_none_iff, not_or, not_not] at hnot
  obtain ⟨hpath, N, hshape, hN⟩ := hnot
  rw [createContourActor_accepted npy_load frame N hpath hshape hN] at hactor
  have hpts : actor.points = (List.range N).map (fun i => contourPoint frame
      ((npy_load frame.contourFilePath).data i)
      ((npy_load frame.contourFilePath).data (N + i))) := by
    rw [← Option.some.inj hactor]
  rw [hpts] at hp
  obtain ⟨i, _, hpi⟩ := List.mem_map.mp hp
  exact ⟨_, _, hpi.symm⟩

/-- C11 (as amended): for a frame with a contour path and an array of shape
(2, N) with N >= 2, `createContourActor` returns an actor whose point `i`, for
every `i < N`, is the first three components of the transform of the frame
applied by `MultiplyPoint` to the homogeneous point (x_i * pixelSpacing[1],
y_i * pixelSpacing[0], 0, 1), where x_i is at offset `i` and y_i at offset
`N + i` of the buffer: component `k` is
(x_i * column spacing) * row direction[k] + (y_i * row spacing) * column
direction[k] + 0 * normal[k] + 1 * position[k], the operations being those of
the carrier in this order.  In exact arithmetic this is position + (x_i * column
spacing) * row direction + (y_i * row spacing) * column direction. -/
theorem createContourActor_transformed_point {R : Type} [Zero R] [One R] [Add R] [Mul R]
    [Sub R] (npy_load : String → NpyArray R) (frame : DicomFrame R) (N i : Nat)
    (hpath : frame.contourFilePath ≠ "")
    (hshape : (npy_load frame.contourFilePath).shape = [2, N]) (hN : 2 ≤ N) (hi : i < N) :
    (∃ actor, createContourActor npy_load frame = some actor
      ∧ ∃ p, actor.points[i]? = some p
        ∧ p = contourPoint frame ((npy_load frame.contourFilePath).data i)
            ((npy_load frame.contourFilePath).data (N + i))
        ∧ (∀ k : Fin 3, p k = multiplyPoint (createTransformMatrix frame)
            ![(npy_load frame.contourFilePath).data i * frame.pixelSpacing 1,
              (npy_load frame.contourFilePath).data (N + i) * frame.pixelSpacing 0, 0, 1]
            k.castSucc)
        ∧ p 0 = ((npy_load frame.contourFilePath).data i * frame.pixelSpacing 1)
              * frame.imageOrientation 0
            + ((npy_load frame.contourFilePath).data (N + i) * frame.pixelSpacing 0)
              * frame.imageOrientation 3
            + 0 * (frame.imageOrientation 1 * frame.imageOrientation 5
                - frame.imageOrientation 2 * frame.imageOrientation 4)
            + 1 * frame.imagePosition 0
        ∧ p 1 = ((npy_load frame.contourFilePath).data i * frame.pixelSpacing 1)
              * frame.imageOrientation 1
            + ((npy_load frame.contourFilePath).data (N + i) * frame.pixelSpacing 0)
              * frame.imageOrientation 4
            + 0 * (frame.imageOrientation 2 * frame.imageOrientation 3
                - frame.imageOrientation 0 * frame.imageOrientation 5)
            + 1 * frame.imagePosition 1
        ∧ p 2 = ((npy_load frame.contourFilePath).data i * frame.pixelSpacing 1)
              * frame.imageOrientation 2
            + ((npy_load frame.contourFilePath).data (N + i) * frame.pixelSpacing 0)
              * frame.imageOrientation 5
            + 0 * (frame.imageOrientation 0 * frame.imageOrientation 4
                - frame.imageOrientation 1 * frame.imageOrientation 3)
            + 1 * frame.imagePosition 2)
      ∧ (∀ (K : Type) [CommRing K] (g : DicomFrame K) (x y : K),
          contourPoint g x y 0
              = g.imagePosition 0 + (x * g.pixelSpacing 1) * g.imageOrientation 0
                + (y * g.pixelSpacing 0) * g.imageOrientation 3
            ∧ contourPoint g x y 1
              = g.imagePosition 1 + (x * g.pixelSpacing 1) * g.imageOrientation 1
                + (y * g.pixelSpacing 0) * g.imageOrientation 4
            ∧ contourPoint g x y 2
              = g.imagePosition 2 + (x * g.pixelSpacing 1) * g.imageOrientation 2
                + (y * g.pixelSpacing 0) * g.imageOrientation 5) := by
  refine ⟨⟨_, createContourActor_accepted npy_load frame N hpath hshape hN,
    contourPoint frame ((npy_load frame.contourFilePath).data i)
      ((npy_load frame.contourFilePath).data (N + i)), ?_, rfl, ?_, rfl, rfl, rfl⟩, ?_⟩
  · show ((List.range N).map _)[i]? = some _
    rw [List.getElem?_map, List.getElem?_range hi]
    rfl
  · intro k
    fin_cases k <;> rfl
  · intro K _ g x y
    exact contourPoint_components g x y

/-- Witness for C11: over `double`, the frame rotated about the z axis and the
points (1, 1) and (0, 0); point 0 is (10.2, 22.35, 30). -/
theorem createContourActor_transformed_point_witness :
    (createContourActor (Example.npyTwoPoints 1) Example.rotatedFrame).map
        (fun actor => actor.points.map (fun p => [p 0, p 1, p 2]))
        = some [[Double.dyadic 2871044762448691 48, Double.dyadic 3145482864741581 47,
              Double.dyadic 30 0],
            [Double.dyadic 21 1, Double.dyadic 81 2, Double.dyadic 30 0]]
      ∧ ∃ actor, createContourActor (Example.npyTwoPoints 1) Example.rotatedFrame = some actor
        ∧ ∃ p, actor.points[0]? = some p
          ∧ p = contourPoint Example.rotatedFrame 1 1 :=
  ⟨by decide,
    (createContourActor_transformed_point (Example.npyTwoPoints 1) Example.rotatedFrame 2 0
      (by decide) rfl (by decide) (by decide)).1.imp
      (fun _ h => ⟨h.1, h.2.imp (fun _ hp => ⟨hp.1, hp.2.1⟩)⟩)⟩

/-- Counterexample to C11 as stated: over `double`, for the frame at
(10.5, 20.25, 30) with row direction (0.6, 0.8, 0), column direction
(-0.8, 0.6, 0) and spacing (1.5, 1.5), the second component of the world point
of the pixel point (1, 1) is 22.35, whereas position + (x * column spacing) *
row direction + (y * row spacing) * column direction is 22.349999999999998 when
computed in `double`, and is neither of the two when computed exactly (the last
line compares the exact values, both multiplied by 2^3222). -/
theorem createContourActor_point_is_not_closed_form :
    (createContourActor (Example.npyTwoPoints 1) Example.rotatedFrame).map
        (fun actor => actor.points.map (fun p => p 1))
        = some [Double.dyadic 3145482864741581 47, Double.dyadic 81 2]
      ∧ Example.rotatedFrame.imagePosition 1
          + ((1 : Double) * Example.rotatedFrame.pixelSpacing 1)
            * Example.rotatedFrame.imageOrientation 1
          + ((1 : Double) * Example.rotatedFrame.pixelSpacing 0)
            * Example.rotatedFrame.imageOrientation 4
        = Double.dyadic 6290965729483161 48
      ∧ Double.dyadic 3145482864741581 47 ≠ Double.dyadic 6290965729483161 48
      ∧ Double.units (Double.dyadic 3145482864741581 47) * ((2 ^ 2148 : Nat) : Int)
        ≠ Double.units (Example.rotatedFrame.imagePosition 1) * ((2 ^ 2148 : Nat) : Int)
          + (Double.units 1 * Double.units (Example.rotatedFrame.pixelSpacing 1))
            * Double.units (Example.rotatedFrame.imageOrientation 1)
          + (Double.units 1 * Double.units (Example.rotatedFrame.pixelSpacing 0))
            * Double.units (Example.rotatedFrame.imageOrientation 4) :=
  ⟨by decide, by decide, by decide, by decide⟩

/-- C12: `createContourActor` returns the null pointer, and so no points, when
the frame has no contour path, when the shape of the array is not of length 2,
when its first dimension is not 2 (shape (3, N) in particular) and when its
second dimension is below 2 (shape (2, 1) in particular); it returns an actor
for every frame with a contour path and every array of shape (2, N) with
N >= 2; and these are all the cases. -/
theorem createContourActor_shape_rejection {R : Type} [Zero R] [One R] [Add R] [Mul R] [Sub R]
    (npy_load : String → NpyArray R) (frame : DicomFrame R) :
    (frame.contourFilePath = "" → createContourActor npy_load frame = none)
      ∧ ((npy_load frame.contourFilePath).shape.length ≠ 2 →
          createContourActor npy_load frame = none)
      ∧ (∀ dim0 dim1, (npy_load frame.contourFilePath).shape = [dim0, dim1] → dim0 ≠ 2 →
          createContourActor npy_load frame = none)
      ∧ (∀ N, (npy_load frame.contourFilePath).shape = [3, N] →
          createContourActor npy_load frame = none)
      ∧ (∀ dim1, (npy_load frame.contourFilePath).shape = [2, dim1] → dim1 < 2 →
          createContourActor npy_load frame = none)
      ∧ ((npy_load frame.contourFilePath).shape = [2, 1] →
          createContourActor npy_load frame = none)
      ∧ (∀ N, frame.contourFilePath ≠ "" →
          (npy_load frame.contourFilePath).shape = [2, N] → 2 ≤ N →
          (createContourActor npy_load frame).isSome = true)
      ∧ (createContourActor npy_load frame = none ↔
          frame.contourFilePath = ""
            ∨ ¬ ∃ N, (npy_load frame.contourFilePath).shape = [2, N] ∧ 2 ≤ N) := by
  have hiff := createContourActor_eq_none_iff npy_load frame
  have hdim0 : ∀ dim0 dim1, (npy_load frame.contourFilePath).shape = [dim0, dim1] →
      dim0 ≠ 2 → createContourActor npy_load frame = none := by
    intro dim0 dim1 hs h0
    apply hiff.mpr
    right
    rintro ⟨N, hN, _⟩
    rw [hs] at hN
    simp only [List.cons.injEq, and_true] at hN
    exact h0 hN.1
  have hdim1 : ∀ dim1, (npy_load frame.contourFilePath).shape = [2, dim1] → dim1 < 2 →
      createContourActor npy_load frame = none := by
    intro dim1 hs h1
    apply hiff.mpr
    right
    rintro ⟨N, hN, hge⟩
    rw [hs] at hN
    simp only [List.cons.injEq, and_true, true_and] at hN
    omega
  refine ⟨fun h => hiff.mpr (Or.inl h), ?_, hdim0, fun N hs => hdim0 3 N hs (by decide),
    hdim1, fun hs => hdim1 1 hs (by decide), ?_, hiff⟩
  · intro hlen
    apply hiff.mpr
    right
    rintro ⟨N, hN, _⟩
    rw [hN] at hlen
    exact hlen rfl
  · intro N hpath hs hN
    rw [createContourActor_accepted npy_load frame N hpath hs hN]
    rfl

/-- Witness for C12: the shapes (3, 2), (2, 1) and (6) are rejected, a frame
without contour path is rejected, and the shape (2, 3) is accepted. -/
theorem createContourActor_shape_rejection_witness :
    createContourActor (Example.npyOfShape [3, 2]) Example.contourFrame = none
      ∧ createContourActor (Example.npyOfShape [2, 1]) Example.contourFrame = none
      ∧ createContourActor (Example.npyOfShape [6]) Example.contourFrame = none
      ∧ createContourActor (Example.npyOfShape [2, 3]) (DicomFrame.init Int) = none
      ∧ (createContourActor (Example.npyOfShape [2, 3]) Example.contourFrame).isSome = true :=
  ⟨(createContourActor_shape_rejection (Example.npyOfShape [3, 2]) Example.contourFrame).2.2.2.1
      2 rfl,
    (createContourActor_shape_rejection (Example.npyOfShape [2, 1])
      Example.contourFrame).2.2.2.2.2.1 rfl,
    (createContourActor_shape_rejection (Example.npyOfShape [6]) Example.contourFrame).2.1
      (by decide),
    (createContourActor_shape_rejection (Example.npyOfShape [2, 3]) (DicomFrame.init Int)).1
      rfl,
    (createContourActor_shape_rejection (Example.npyOfShape [2, 3])
      Example.contourFrame).2.2.2.2.2.2.1 3 (by decide) rfl (by decide)⟩

/-- C13: for a frame with a contour path and an array of shape (2, N) with
N >= 2, the actor of `createContourActor` has exactly N points and a single
cell, opened with size N + 1, whose point ids are 0, 1, ..., N - 1, 0: N + 1
ids, the first and the last of which are point 0. -/
theorem createContourActor_closed_polyline {R : Type} [Zero R] [One R] [Add R] [Mul R]
    [Sub R] (npy_load : String → NpyArray R) (frame : DicomFrame R) (N : Nat)
    (hpath : frame.contourFilePath ≠ "")
    (hshape : (npy_load frame.contourFilePath).shape = [2, N]) (hN : 2 ≤ N) :
    ∃ actor, createContourActor npy_load frame = some actor
      ∧ actor.points.length = N
      ∧ actor.lines = [(N + 1, List.range N ++ [0])]
      ∧ (List.range N ++ [0]).length = N + 1
      ∧ (List.range N ++ [0]).head? = some 0
      ∧ (List.range N ++ [0]).getLast? = some 0 := by
  refine ⟨_, createContourActor_accepted npy_load frame N hpath hshape hN, ?_, rfl, ?_, ?_, ?_⟩
  · simp
  · simp
  · obtain ⟨M, rfl⟩ : ∃ M, N = M + 1 := ⟨N - 1, by omega⟩
    simp [List.range_succ_eq_map]
  · simp

/-- Witness for C13: the array of shape (2, 3) gives 3 points and the cell
0, 1, 2, 0 of size 4. -/
theorem createContourActor_closed_polyline_witness :
    ∃ actor, createContourActor (Example.npyOfShape [2, 3]) Example.contourFrame = some actor
      ∧ actor.points.length = 3
      ∧ actor.lines = [(3 + 1, List.range 3 ++ [0])]
      ∧ (List.range 3 ++ [0]).length = 3 + 1
      ∧ (List.range 3 ++ [0]).head? = some 0
      ∧ (List.range 3 ++ [0]).getLast? = some 0 :=
  createContourActor_closed_polyline (Example.npyOfShape [2, 3]) Example.contourFrame 3
    (by decide) rfl (by decide)

/-- C17 (as amended): for every frame, with any row and column direction and any
pixel spacing, every world point of the contour mapping is the transform applied
to a local point whose through-plane coordinate is the constant 0: component `k`
is mm_x * column one + mm_y * column two + 0 * column three + 1 * column four of
the transform, column three being row direction x column direction; every point
of every actor that `createContourActor` returns is such a point.  In exact
arithmetic the world point p then satisfies
(p - imagePosition) . (row direction x column direction) = 0. -/
theorem contour_point_has_zero_normal_coordinate {R : Type} [Zero R] [One R] [Add R] [Mul R]
    [Sub R] (frame : DicomFrame R) :
    (∀ (x y : R) (k : Fin 3),
        contourPoint frame x y k
          = (x * frame.pixelSpacing 1) * createTransformMatrix frame k.castSucc 0
            + (y * frame.pixelSpacing 0) * createTransformMatrix frame k.castSucc 1
            + 0 * createTransformMatrix frame k.castSucc 2
            + 1 * createTransformMatrix frame k.castSucc 3)
      ∧ (∀ k : Fin 3,
          createTransformMatrix frame k.castSucc 2
            = cross ![frame.imageOrientation 0, frame.imageOrientation 1,
                frame.imageOrientation 2]
              ![frame.imageOrientation 3, frame.imageOrientation 4,
                frame.imageOrientation 5] k)
      ∧ (∀ (npy_load : String → NpyArray R) (actor : ContourActor R),
          createContourActor npy_load frame = some actor → ∀ p ∈ actor.points,
            ∃ x y, p = contourPoint frame x y)
      ∧ (∀ (K : Type) [CommRing K] (g : DicomFrame K) (x y : K),
          (contourPoint g x y 0 - g.imagePosition 0)
              * cross ![g.imageOrientation 0, g.imageOrientation 1, g.imageOrientation 2]
                  ![g.imageOrientation 3, g.imageOrientation 4, g.imageOrientation 5] 0
            + (contourPoint g x y 1 - g.imagePosition 1)
              * cross ![g.imageOrientation 0, g.imageOrientation 1, g.imageOrientation 2]
                  ![g.imageOrientation 3, g.imageOrientation 4, g.imageOrientation 5] 1
            + (contourPoint g x y 2 - g.imagePosition 2)
              * cross ![g.imageOrientation 0, g.imageOrientation 1, g.imageOrientation 2]
                  ![g.imageOrientation 3, g.imageOrientation 4, g.imageOrientation 5] 2
            = 0) := by
  refine ⟨?_, ?_, ?_, ?_⟩
  · intro x y k
    fin_cases k <;> rfl
  · intro k
    fin_cases k <;> rfl
  · intro npy_load actor hactor p hp
    exact mem_points_of_createContourActor npy_load frame actor hactor p hp
  · intro K _ g x y
    exact contourPoint_plane g x y

/-- Witness for C17: over `double`, every point of the actor of the tilted frame
is the contour mapping of some pixel point. -/
theorem contour_point_has_zero_normal_coordinate_witness :
    ∃ actor, createContourActor (Example.npyTwoPoints 0) Example.tiltedFrame = some actor
      ∧ ∀ p ∈ actor.points, ∃ x y, p = contourPoint Example.tiltedFrame x y :=
  ⟨(createContourActor (Example.npyTwoPoints 0) Example.tiltedFrame).get (by decide),
    (Option.some_get _).symm,
    (contour_point_has_zero_normal_coordinate Example.tiltedFrame).2.2.1
      (Example.npyTwoPoints 0) _ (Option.some_get _).symm⟩

/-- Counterexample to C17 as stated: over `double`, for the frame at
(10.5, 20.25, 30) with row direction (0.6, 0.8, 0), column direction (0, 0, 1)
and spacing (1.5, 1.5), the world point of the pixel point (1, 0) is
(11.4, 21.45, 30) and row direction x column direction is (0.8, -0.6, 0); the
offset (p - imagePosition) . (row direction x column direction) computed in
`double` is 7 * 2^-53, not 0, and the exact offset of the point is not 0 either
(the last line is the exact offset multiplied by 2^3222). -/
theorem contour_point_off_plane :
    (createContourActor (Example.npyTwoPoints 0) Example.tiltedFrame).map
        (fun actor => actor.points.map (fun p => [p 0, p 1, p 2]))
        = some [[Double.dyadic 6417629469002957 49, Double.dyadic 6037638250443571 48,
              Double.dyadic 30 0],
            [Double.dyadic 21 1, Double.dyadic 81 2, Double.dyadic 30 0]]
      ∧ (fun k => contourPoint Example.tiltedFrame 1 0 k)
        = ![Double.dyadic 6417629469002957 49, Double.dyadic 6037638250443571 48,
            Double.dyadic 30 0]
      ∧ (contourPoint Example.tiltedFrame 1 0 0 - Example.tiltedFrame.imagePosition 0)
            * cross ![Example.tiltedFrame.imageOrientation 0,
                  Example.tiltedFrame.imageOrientation 1, Example.tiltedFrame.imageOrientation 2]
                ![Example.tiltedFrame.imageOrientation 3,
                  Example.tiltedFrame.imageOrientation 4, Example.tiltedFrame.imageOrientation 5] 0
          + (contourPoint Example.tiltedFrame 1 0 1 - Example.tiltedFrame.imagePosition 1)
            * cross ![Example.tiltedFrame.imageOrientation 0,
                  Example.tiltedFrame.imageOrientation 1, Example.tiltedFrame.imageOrientation 2]
                ![Example.tiltedFrame.imageOrientation 3,
                  Example.tiltedFrame.imageOrientation 4, Example.tiltedFrame.imageOrientation 5] 1
          + (contourPoint Example.tiltedFrame 1 0 2 - Example.tiltedFrame.imagePosition 2)
            * cross ![Example.tiltedFrame.imageOrientation 0,
                  Example.tiltedFrame.imageOrientation 1, Example.tiltedFrame.imageOrientation 2]
                ![Example.tiltedFrame.imageOrientation 3,
                  Example.tiltedFrame.imageOrientation 4, Example.tiltedFrame.imageOrientation 5] 2
        = Double.dyadic 7 53
      ∧ Double.dyadic 7 53 ≠ 0
      ∧ (Double.units (contourPoint Example.tiltedFrame 1 0 0)
              - Double.units (Example.tiltedFrame.imagePosition 0))
            * (Double.units (Example.tiltedFrame.imageOrientation 1)
                * Double.units (Example.tiltedFrame.imageOrientation 5)
              - Double.units (Example.tiltedFrame.imageOrientation 2)
                * Double.units (Example.tiltedFrame.imageOrientation 4))
          + (Double.units (contourPoint Example.tiltedFrame 1 0 1)
              - Double.units (Example.tiltedFrame.imagePosition 1))
            * (Double.units (Example.tiltedFrame.imageOrientation 2)
                * Double.units (Example.tiltedFrame.imageOrientation 3)
              - Double.units (Example.tiltedFrame.imageOrientation 0)
                * Double.units (Example.tiltedFrame.imageOrientation 5))
          + (Double.units (contourPoint Example.tiltedFrame 1 0 2)
              - Double.units (Example.tiltedFrame.imagePosition 2))
            * (Double.units (Example.tiltedFrame.imageOrientation 0)
                * Double.units (Example.tiltedFrame.imageOrientation 4)
              - Double.units (Example.tiltedFrame.imageOrientation 1)
                * Double.units (Example.tiltedFrame.imageOrientation 3))
        ≠ 0 := by
  refine ⟨by decide, ?_, by decide, by decide, by decide⟩
  funext k
  fin_cases k <;> decide

/-! ### The opacity clamp -/

theorem stdMin_eq_min {R : Type} [LinearOrder R] (a b : R) : stdMin a b = min a b := by
  unfold stdMin
  by_cases h : b < a
  · rw [if_pos h, min_eq_right (le_of_lt h)]
  · rw [if_neg h, min_eq_left (not_lt.mp h)]

theorem stdMax_eq_max {R : Type} [LinearOrder R] (a b : R) : stdMax a b = max a b := by
  unfold stdMax
  by_cases h : a < b
  · rw [if_pos h, max_eq_right (le_of_lt h)]
  · rw [if_neg h, max_eq_left (not_lt.mp h)]

theorem setSliceOpacity_some {R : Type} [LinearOrderedField R] (property : ImageProperty R)
    (opacity : R) :
    setSliceOpacity (some property) opacity
      = some { property with opacity := max 0 (min 1 opacity) } := by
  unfold setSliceOpacity
  simp only [stdMin_eq_min, stdMax_eq_max]

/-- C16: for every opacity x, `setSliceOpacity` stores max(0, min(1, x)) in the
image property and leaves its other settings as they are; a value in [0, 1] is
stored unchanged, -0.5 is stored as 0 and 1.5 as 1; on the property made by the
constructor the stored opacity is max(0, min(1, x)). -/
theorem setSliceOpacity_clamps {R : Type} [LinearOrderedField R] (property : ImageProperty R)
    (opacity : R) :
    setSliceOpacity (some property) opacity
        = some { property with opacity := max 0 (min 1 opacity) }
      ∧ (0 ≤ opacity → opacity ≤ 1 →
          setSliceOpacity (some property) opacity = some { property with opacity := opacity })
      ∧ setSliceOpacity (some property) (-0.5) = some { property with opacity := 0 }
      ∧ setSliceOpacity (some property) 1.5 = some { property with opacity := 1 }
      ∧ (setSliceOpacity newImageProperty opacity).map (fun p => p.opacity)
          = some (max 0 (min 1 opacity)) := by
  refine ⟨setSliceOpacity_some property opacity, ?_, ?_, ?_, ?_⟩
  · intro h0 h1
    rw [setSliceOpacity_some, min_eq_right h1, max_eq_right h0]
  · rw [setSliceOpacity_some]
    have h : max (0 : R) (min 1 (-0.5)) = 0 := by norm_num
    rw [h]
  · rw [setSliceOpacity_some]
    have h : max (0 : R) (min 1 1.5) = 1 := by norm_num
    rw [h]
  · unfold newImageProperty
    rw [setSliceOpacity_some]
    rfl

/-- Witness for C16: on the rationals, the opacity 1/4 is stored unchanged. -/
theorem setSliceOpacity_clamps_witness :
    (0 : ℚ) ≤ 1 / 4 ∧ (1 / 4 : ℚ) ≤ 1
      ∧ setSliceOpacity (some ({ opacity := 7 / 10, colorWindow := 1000, colorLevel := 500 } :
            ImageProperty ℚ)) (1 / 4)
          = some { opacity := 1 / 4, colorWindow := 1000, colorLevel := 500 } :=
  ⟨by norm_num, by norm_num,
    (setSliceOpacity_clamps ({ opacity := 7 / 10, colorWindow := 1000, colorLevel := 500 } :
      ImageProperty ℚ) (1 / 4)).2.1 (by norm_num) (by norm_num)⟩

end VtkManager

end Dicom
